import Mathlib

/-!
Verification development for the nanoclaw skills engine
(`src/skills-engine/replay.ts`, `resolution-cache.ts`, `uninstall.ts`,
`constants.ts`), as a shallow embedding.

Files are modelled as association lists from repository-relative paths to
string contents.  External primitives whose sources live outside
`src/skills-engine` (the three-way merge engine `merge.ts`, the structured
merges `structured.ts`, `backup.ts`, `state.ts`, `path-remap.ts`,
`file-ops.ts`) are modelled as opaque function parameters collected in an
environment record, faithful to the way `replay.ts` and `uninstall.ts`
invoke them.  Every observable side effect is additionally recorded in an
event trace so that claims about "no file is touched" or "the backup is
restored" can be stated exactly.
-/

namespace Nanoclaw

/-- Association-list lookup by string key: first binding wins, mirroring
JavaScript object / map access. -/
def lookupStr {α : Type} : List (String × α) → String → Option α
  | [], _ => none
  | (q, v) :: rest, k => if q = k then some v else lookupStr rest k

/-- Association-list update: overwrite the first binding in place (keeping
its position, as JavaScript object assignment does) or append. -/
def setStr {α : Type} : List (String × α) → String → α → List (String × α)
  | [], k, v => [(k, v)]
  | (q, u) :: rest, k, v =>
      if q = k then (k, v) :: rest else (q, u) :: setStr rest k v

/-- Remove every binding for a key. -/
def eraseStr {α : Type} : List (String × α) → String → List (String × α)
  | [], _ => []
  | (q, u) :: rest, k =>
      if q = k then eraseStr rest k else (q, u) :: eraseStr rest k

theorem lookupStr_setStr {α : Type} (l : List (String × α)) (k k' : String)
    (v : α) :
    lookupStr (setStr l k v) k' = if k' = k then some v else lookupStr l k' := by
  induction l with
  | nil =>
    by_cases h : k' = k
    · subst h; simp [setStr, lookupStr]
    · simp [setStr, lookupStr, h, Ne.symm h]
  | cons kv rest ih =>
    obtain ⟨q, u⟩ := kv
    by_cases hq : q = k
    · subst hq
      by_cases h : k' = q
      · subst h; simp [setStr, lookupStr]
      · simp [setStr, lookupStr, h, Ne.symm h]
    · by_cases h1 : q = k'
      · subst h1
        simp [setStr, lookupStr, hq, Ne.symm hq]
      · simp [setStr, lookupStr, hq, h1, ih]

theorem lookupStr_eraseStr {α : Type} (l : List (String × α)) (k k' : String) :
    lookupStr (eraseStr l k) k' =
      if k' = k then none else lookupStr l k' := by
  induction l with
  | nil =>
    by_cases h : k' = k <;> simp [eraseStr, lookupStr, h]
  | cons kv rest ih =>
    obtain ⟨q, u⟩ := kv
    by_cases hq : q = k
    · subst hq
      by_cases h : k' = q
      · subst h; simp [eraseStr, lookupStr, ih]
      · simp [eraseStr, lookupStr, h, Ne.symm h, ih]
    · by_cases h : q = k'
      · subst h
        simp [eraseStr, lookupStr, hq, Ne.symm hq]
      · simp [eraseStr, lookupStr, hq, h, ih]

/-- Insert a path into a collected list unless already present: the model of
adding to a JavaScript `Set`, preserving first-insertion order. -/
def insertUniq (l : List String) (x : String) : List String :=
  if x ∈ l then l else l ++ [x]

/-- Whitespace as recognised by `String.prototype.trim` (the cases relevant
to hash sidecar files). -/
def isWhite (c : Char) : Bool :=
  c = ' ' ∨ c = '\t' ∨ c = '\n' ∨ c = '\r'

/-- `trim`: drop leading and trailing whitespace (structural recursion so
that concrete instances reduce). -/
def strTrim (s : String) : String :=
  String.mk (((s.data.dropWhile isWhite).reverse.dropWhile isWhite).reverse)

/-- Code-point comparison of strings, mirroring the default JavaScript
string ordering used by `Array.prototype.sort()`. -/
def charsLe : List Char → List Char → Bool
  | [], _ => true
  | _ :: _, [] => false
  | a :: as, b :: bs =>
      if a.toNat < b.toNat then true
      else if b.toNat < a.toNat then false
      else charsLe as bs

def strLeB (a b : String) : Bool := charsLe a.data b.data

/-- `Array.prototype.join(sep)`. -/
def joinSep (sep : String) : List String → String
  | [] => ""
  | [x] => x
  | x :: xs => x ++ sep ++ joinSep sep xs

/-- A file tree: association list from repository-relative path to content.
`lookupStr fs p = none` models `fs.existsSync(p) = false`. -/
abbrev FS := List (String × String)

/-- Observable side effects, recorded in order of occurrence. -/
inductive Ev where
  /-- a working-tree file was created or overwritten (`fs.copyFileSync` /
  `fs.writeFileSync` into the project tree) -/
  | write (p : String)
  /-- a working-tree file was deleted (`fs.unlinkSync`) -/
  | eraseF (p : String)
  /-- a file was written into the base snapshot directory -/
  | baseWrite (p : String)
  /-- `executeFileOps` ran for a skill -/
  | fileOps (skill : String)
  /-- `runNpmInstall` ran, with its success flag -/
  | npmInstall (ok : Bool)
  /-- an rr-cache entry (preimage/postimage pair) was seeded -/
  | rrSeed (hash : String) (relPath : String)
  /-- `acquireLock` succeeded -/
  | lock
  /-- `releaseLock` ran -/
  | unlock
  /-- `createBackup` ran -/
  | backupCreate
  /-- `restoreBackup` ran -/
  | backupRestore
  /-- `clearBackup` ran -/
  | backupClear
  /-- `writeState` persisted the state document -/
  | stateWrite
  /-- `git apply --3way` ran for a custom-modification patch file -/
  | gitApply (p : String)
deriving DecidableEq, Repr

/-- Record of one applied skill in the persisted state document
(`state.yaml`), as read by `uninstall.ts`. -/
structure AppliedSkill where
  name : String
  fileHashes : List (String × String)
  custom_patch : Option String
  custom_patch_description : Option String
  /-- `structured_outcomes.test`, the declared test command, when present -/
  testCmd : Option String
deriving DecidableEq, Repr

/-- One entry of `state.custom_modifications`. -/
structure CustomMod where
  patch_file : String
  files_modified : List String
deriving DecidableEq, Repr

/-- The persisted state document. -/
structure SysState where
  rebased_at : Option String
  applied_skills : List AppliedSkill
  custom_modifications : List CustomMod
deriving DecidableEq, Repr

/-- The mutable world acted on by the skills engine: the working tree, the
base snapshot directory `.nanoclaw/base`, the persisted state document, the
backup area, the git rr-cache (hash to preimage/postimage pair) and the
event trace. -/
structure World where
  fs : FS
  base : FS
  stateDoc : SysState
  backup : Option (List (String × Option String))
  rrCache : List (String × (String × String))
  events : List Ev
deriving DecidableEq, Repr

/-- Write a working-tree file. -/
def World.fsWrite (w : World) (p c : String) : World :=
  { w with fs := setStr w.fs p c, events := w.events ++ [Ev.write p] }

/-- Delete a working-tree file. -/
def World.fsErase (w : World) (p : String) : World :=
  { w with fs := eraseStr w.fs p, events := w.events ++ [Ev.eraseF p] }

/-- Write a file in the base snapshot directory. -/
def World.baseWrite (w : World) (p c : String) : World :=
  { w with base := setStr w.base p c, events := w.events ++ [Ev.baseWrite p] }

/-- Seed one rr-cache entry (`mkdirSync` of the hash directory plus writing
`preimage` and `postimage`). -/
def World.rrSeed (w : World) (hash pre post : String) (relPath : String) :
    World :=
  { w with rrCache := setStr w.rrCache hash (pre, post),
           events := w.events ++ [Ev.rrSeed hash relPath] }

/-! ## Constants (`src/skills-engine/constants.ts`) -/

def NANOCLAW_DIR : String := ".nanoclaw"
def BASE_DIR : String := ".nanoclaw/base"
def RESOLUTIONS_DIR : String := ".nanoclaw/resolutions"
def SHIPPED_RESOLUTIONS_DIR : String := ".gemini/resolutions"

/-- `path.join` for the simple relative components used here. -/
def pjoin (a b : String) : String := a ++ "/" ++ b

/-! ## Data model of skill packages and resolution records -/

/-- The per-file `{base, current, skill}` hash triple stored in
`meta.yaml` under `file_hashes`. -/
structure FileInputHashes where
  base : String
  current : String
  skill : String
deriving DecidableEq, Repr

/-- The parts of a parsed `meta.yaml` that `loadResolutions` inspects:
the truthiness of `input_hashes` and the `file_hashes` mapping. -/
structure MetaDoc where
  inputHashesPresent : Bool
  fileHashes : List (String × FileInputHashes)
deriving DecidableEq, Repr

/-- One preimage/resolution pair found by `findPreimagePairs`: a
`<relPath>.preimage` file with its matching `<relPath>.resolution` file and
the optional `<relPath>.preimage.hash` sidecar content. -/
structure Pair where
  relPath : String
  preimageContent : String
  resolutionContent : String
  sidecar : Option String
deriving DecidableEq, Repr

/-- The rerere token of a pair: the trimmed sidecar content, `""` when the
sidecar file is absent. -/
def Pair.token (pr : Pair) : String :=
  match pr.sidecar with
  | some s => strTrim s
  | none => ""

/-- A skill manifest as read by `replay.ts` (`readManifest`): the `adds`
and `modifies` path lists, the opaque `file_ops` list, and the structured
operations.  `npmDeps = some l` models a present
`structured.npm_dependencies` object (possibly empty, which still sets
`hasNpmDeps` in `replaySkills`). -/
structure Manifest where
  adds : List String
  modifies : List String
  fileOps : List String
  npmDeps : Option (List (String × String))
  envAdditions : List String
  dockerServices : List (String × String)
deriving DecidableEq, Repr

/-- The contents of one skill package directory: its manifest, the files
under `add/` and the files under `modify/` (keyed by repository-relative
path). -/
structure SkillPkg where
  manifest : Manifest
  addFiles : List (String × String)
  modifyFiles : List (String × String)
deriving DecidableEq, Repr

/-- Result of the three-way merge primitive `mergeFile` from `merge.ts`:
the `clean` flag and the content written to the target file (merged
content when clean, conflict-marked content otherwise). -/
structure MergeOut where
  clean : Bool
  content : String
deriving DecidableEq, Repr

/-- The static environment of a run: skill packages on disk, and the
external primitives that `replay.ts`, `resolution-cache.ts` and
`uninstall.ts` call but whose sources live outside `src/skills-engine`.

* `pkgs` — skill directory path to package contents; `readManifest dir`
  throws when `lookupStr pkgs dir = none`.
* `pathRemap` — `resolvePathRemap` with the loaded path remap
  (`path-remap.ts`).
* `mergeFile ours base theirs` — the three-way merge engine (`merge.ts`).
  Modelled from the spec: diff3 over (current, base, skill), returning
  clean output or conflict-marked content.
* `rerere cache conflict` — `runRerere` on a conflict-marked file: `some c`
  when the merge tool auto-resolves it to `c` using its replay memory,
  `none` otherwise.  Modelled from the spec (merge tool resolution-replay
  memory lookup).
* `execFileOps` — `executeFileOps` from `file-ops.ts`: success flag, error
  list, and the resulting working tree.
* `findSkillDir` — the `.gemini/skills` manifest scan from `replay.ts`,
  abstracted as name to directory.
* `runTest` — `execSync` of a declared test command: true when it exits
  zero.
* `applyPatch` — `git apply --3way` of a custom-modification patch file on
  the working tree.
* `hash` — `computeFileHash` from `state.ts`.  Modelled from the spec:
  the SHA-256 of a file content, abstracted as an arbitrary function since
  only hash equality is observed.
* `dirs` — the set of existing directories (for `fs.existsSync` on
  resolution directories).
* `metaOf` — reading plus YAML-parsing of `<resDir>/meta.yaml`; `none`
  when the file is missing or unparseable.
* `pairsOf` — `findPreimagePairs` on a resolution directory.
* `gitDir` — the result of `git rev-parse --git-dir`; `none` when the
  project root is not inside a git repository. -/
structure Env where
  pkgs : List (String × SkillPkg)
  pathRemap : String → String
  mergeFile : String → String → String → MergeOut
  isGitRepo : Bool
  rerere : List (String × (String × String)) → String → Option String
  execFileOps : List String → FS → Bool × List String × FS
  findSkillDir : String → Option String
  runTest : String → Bool
  applyPatch : String → FS → FS
  hash : String → String
  dirs : List String
  metaOf : String → Option MetaDoc
  pairsOf : String → List Pair
  gitDir : Option String

/-! ## Resolution cache (`src/skills-engine/resolution-cache.ts`) -/

/-- Insertion sort of strings, mirroring the stable lexicographic
JavaScript `Array.prototype.sort()` on the copied skill list. -/
def insertSorted (x : String) : List String → List String
  | [] => [x]
  | y :: ys => if strLeB x y then x :: y :: ys else y :: insertSorted x ys

def sortStrings (l : List String) : List String :=
  l.foldr insertSorted []

/-- `resolutionKey`: skills sorted alphabetically and joined with `"+"`. -/
def resolutionKey (skills : List String) : String :=
  joinSep "+" (sortStrings skills)

/-- `findResolutionDir`: check the shipped resolutions root
(`.gemini/resolutions/`) first, then the project-level root
(`.nanoclaw/resolutions/`); return the first existing directory. -/
def findResolutionDir (env : Env) (skills : List String) : Option String :=
  let key := resolutionKey skills
  if pjoin SHIPPED_RESOLUTIONS_DIR key ∈ env.dirs then
    some (pjoin SHIPPED_RESOLUTIONS_DIR key)
  else if pjoin RESOLUTIONS_DIR key ∈ env.dirs then
    some (pjoin RESOLUTIONS_DIR key)
  else none

/-- Content of the skill package file `<skillDir>/modify/<relPath>`, given
the optional skill directory argument of `loadResolutions`. -/
def modifyContent (env : Env) (skillDir? : Option String) (relPath : String) :
    Option String :=
  match skillDir? with
  | none => none
  | some d =>
    match lookupStr env.pkgs d with
    | none => none
    | some pkg => lookupStr pkg.modifyFiles relPath

/-- The per-pair body of the `loadResolutions` loop: verify the
`file_hashes` entry, the existence of the three input files, the three
hash equalities and the sidecar token; on full success seed the rr-cache
entry and mark that at least one pair loaded, otherwise skip the pair. -/
def loadOnePair (env : Env) (skillDir? : Option String) (m : MetaDoc)
    (acc : World × Bool) (pr : Pair) : World × Bool :=
  let (w, loaded) := acc
  match lookupStr m.fileHashes pr.relPath with
  | none => (w, loaded)
  | some expected =>
    match lookupStr w.base pr.relPath, lookupStr w.fs pr.relPath,
        modifyContent env skillDir? pr.relPath with
    | some baseC, some curC, some skillC =>
      if env.hash baseC ≠ expected.base then (w, loaded)
      else if env.hash curC ≠ expected.current then (w, loaded)
      else if env.hash skillC ≠ expected.skill then (w, loaded)
      else
        match pr.sidecar with
        | none => (w, loaded)
        | some s =>
          if strTrim s = "" then (w, loaded)
          else
            (w.rrSeed (strTrim s) pr.preimageContent pr.resolutionContent
              pr.relPath, true)
    | _, _, _ => (w, loaded)

/-- `loadResolutions`: locate the resolution directory for the key, read
and parse its meta document, require `input_hashes`, collect the
preimage/resolution pairs, resolve the git directory, then load each pair
that passes all checks into the rr-cache.  Returns whether at least one
pair was loaded, together with the updated world. -/
def loadResolutions (env : Env) (skills : List String)
    (skillDir? : Option String) (w : World) : Bool × World :=
  match findResolutionDir env skills with
  | none => (false, w)
  | some resDir =>
    match env.metaOf resDir with
    | none => (false, w)
    | some m =>
      if ¬ m.inputHashesPresent then (false, w)
      else
        let pairs := env.pairsOf resDir
        if pairs.isEmpty then (false, w)
        else
          match env.gitDir with
          | none => (false, w)
          | some _ =>
            let (w', loadedAny) :=
              pairs.foldl (loadOnePair env skillDir? m) (w, false)
            (loadedAny, w')

/-- The checks of one iteration of the `loadResolutions` loop as a
predicate on the pair, evaluated against the world at entry (the loop only
ever adds rr-cache entries, so the checks are stable across iterations):
a `file_hashes` entry exists, the base snapshot file, current working file
and skill `modify/` file all exist, their hashes equal the recorded
triple, and the sidecar token is present and non-empty. -/
def pairLoadOk (env : Env) (skillDir? : Option String) (m : MetaDoc)
    (w : World) (pr : Pair) : Bool :=
  match lookupStr m.fileHashes pr.relPath with
  | none => false
  | some expected =>
    match lookupStr w.base pr.relPath, lookupStr w.fs pr.relPath,
        modifyContent env skillDir? pr.relPath with
    | some baseC, some curC, some skillC =>
      decide (env.hash baseC = expected.base ∧
        env.hash curC = expected.current ∧
        env.hash skillC = expected.skill ∧ pr.token ≠ "")
    | _, _, _ => false

/-! ## Replay orchestrator (`src/skills-engine/replay.ts`) -/

/-- The structured-operation primitives from `structured.ts` plus the
`runNpmInstall` outcome, separated from `Env` because `replaySkills`
consults them only in its final aggregation step.  Each merge function
takes the current content of the target file (when it exists) and the
aggregated additions, and yields the new file content.  Modelled from the
spec: dedicated non-text merge rules for package dependencies,
env-variable additions and docker-compose service definitions. -/
structure StructEnv where
  mergeNpm : Option String → List (String × String) → String
  mergeEnv : Option String → List String → String
  mergeCompose : Option String → List (String × String) → String
  npmInstallOk : Bool

/-- Per-skill outcome recorded in `perSkill`. -/
structure SkillOutcome where
  success : Bool
  error : Option String
deriving DecidableEq, Repr

/-- The `ReplayResult` record. -/
structure ReplayResult where
  success : Bool
  perSkill : List (String × SkillOutcome)
  mergeConflicts : Option (List String)
  error : Option String
deriving DecidableEq, Repr

/-- Outcome of `replaySkills`: a returned result, or an exception
propagating out of the function (reading a manifest outside the per-skill
`try` block throws). -/
inductive ReplayOut where
  | thrown (msg : String) (w : World)
  | done (r : ReplayResult) (w : World)
deriving DecidableEq, Repr

/-- Outcome of the file-collection loop (step 1 of `replaySkills`). -/
inductive CollectRes where
  | missingDir (skillName : String)
  | thrown (msg : String)
  | ok (files : List String)
deriving DecidableEq, Repr

/-- Step 1 of `replaySkills`: walk the skill list in order and union all
`adds` and `modifies` paths; fail on the first skill without a `skillDirs`
entry; reading a manifest of an invalid directory throws. -/
def collectTouched (env : Env) (skillDirs : List (String × String)) :
    List String → List String → CollectRes
  | [], acc => .ok acc
  | s :: rest, acc =>
    match lookupStr skillDirs s with
    | none => .missingDir s
    | some dir =>
      match lookupStr env.pkgs dir with
      | none => .thrown ("readManifest failed for " ++ dir)
      | some pkg =>
        collectTouched env skillDirs rest
          ((pkg.manifest.adds ++ pkg.manifest.modifies).foldl insertUniq acc)

/-- Step 2 of `replaySkills` for one collected path: remap it, then
restore it from the base snapshot when present there, otherwise delete it
from the working tree when present.  Also reused by step 7 of
`uninstallSkill`, which performs the identical reset for files exclusively
owned by the removed skill. -/
def resetFile (env : Env) (w : World) (relPath : String) : World :=
  let resolved := env.pathRemap relPath
  match lookupStr w.base resolved with
  | some c => w.fsWrite resolved c
  | none =>
    if (lookupStr w.fs resolved).isSome then w.fsErase resolved else w

/-- Step 2 of `replaySkills`: reset every collected path. -/
def resetPhase (env : Env) (w : World) (files : List String) : World :=
  files.foldl (resetFile env) w

/-- Loop state of the per-skill replay loop: the world, the `perSkill`
record and the aggregated structured operations. -/
structure Acc where
  w : World
  perSkill : List (String × SkillOutcome)
  npmDeps : List (String × String)
  hasNpm : Bool
  envAdds : List String
  docker : List (String × String)

/-- Result of applying one skill inside the loop. -/
inductive StepRes where
  /-- an early `return` out of `replaySkills` (file-ops failure or a
  caught exception) -/
  | early (r : ReplayResult) (w : World)
  /-- the skill ended with unresolved conflicts (non-empty) -/
  | conflicted (c : List String) (a : Acc)
  /-- the skill applied successfully -/
  | ok (a : Acc)

/-- `Object.assign` over an association list: later entries override. -/
def assignAll (tgt : List (String × String)) (src : List (String × String)) :
    List (String × String) :=
  src.foldl (fun t kv => setStr t kv.1 kv.2) tgt

/-- The merge of one `modifies` file once its three inputs are known:
a clean merge writes the merged content; a dirty merge writes the
conflict-marked content and, inside a git repository, offers it to the
merge-tool replay memory — an auto-resolution overwrites the file and the
path is not conflicted, otherwise the path is recorded. -/
def mergeWithBase (env : Env) (resolved cur baseC skillC : String)
    (w : World) (cs : List String) : World × List String :=
  match env.mergeFile cur baseC skillC with
  | ⟨true, content⟩ => (w.fsWrite resolved content, cs)
  | ⟨false, content⟩ =>
    if env.isGitRepo then
      match env.rerere w.rrCache content with
      | some rc => ((w.fsWrite resolved content).fsWrite resolved rc, cs)
      | none => (w.fsWrite resolved content, cs ++ [resolved])
    else (w.fsWrite resolved content, cs ++ [resolved])

/-- The body of the three-way-merge loop of `replaySkills` for one
`modifies` path: a missing skill file is a conflict; a missing current
file is filled from the skill file; a missing base file is backfilled
from the current file; then the merge runs. -/
def mergeOneModify (env : Env) (pkg : SkillPkg)
    (acc : World × List String) (relPath : String) : World × List String :=
  match acc with
  | (w, cs) =>
    match lookupStr pkg.modifyFiles relPath with
    | none => (w, cs ++ [relPath])
    | some skillC =>
      match lookupStr w.fs (env.pathRemap relPath) with
      | none => (w.fsWrite (env.pathRemap relPath) skillC, cs)
      | some cur =>
        match lookupStr w.base (env.pathRemap relPath) with
        | some b =>
          mergeWithBase env (env.pathRemap relPath) cur b skillC w cs
        | none =>
          mergeWithBase env (env.pathRemap relPath) cur cur skillC
            (w.baseWrite (env.pathRemap relPath) cur) cs

/-- The `file_ops` phase of one skill: when the manifest declares
operations, run `executeFileOps` on the working tree and record the event;
returns the success flag, the error list and the resulting world. -/
def runFileOps (env : Env) (s : String) (ops : List String) (w : World) :
    Bool × List String × World :=
  if ops.isEmpty then (true, [], w)
  else
    let r := env.execFileOps ops w.fs
    (r.1, r.2.1, { w with fs := r.2.2, events := w.events ++ [Ev.fileOps s] })

/-- The `add/` copy phase of one skill: copy each declared `adds` file
that exists in the package to its remapped destination. -/
def applyAdds (env : Env) (pkg : SkillPkg) (w : World) : World :=
  pkg.manifest.adds.foldl (fun w relPath =>
    match lookupStr pkg.addFiles relPath with
    | some c => w.fsWrite (env.pathRemap relPath) c
    | none => w) w

/-- The three-way-merge phase of one skill over all its `modifies` paths,
returning the world and the accumulated conflict list. -/
def applyModifies (env : Env) (pkg : SkillPkg) (w : World) :
    World × List String :=
  pkg.manifest.modifies.foldl (mergeOneModify env pkg) (w, [])

/-- Collect one successful skill's structured operations into the
aggregation (`Object.assign` for npm deps and docker services, list
append for env additions; any present `npm_dependencies` object sets the
`hasNpmDeps` flag). -/
def collectStructured (m : Manifest) (a : Acc) : Acc :=
  let a' :=
    match m.npmDeps with
    | some deps => { a with npmDeps := assignAll a.npmDeps deps, hasNpm := true }
    | none => a
  { a' with envAdds := a'.envAdds ++ m.envAdditions,
            docker := assignAll a'.docker m.dockerServices }

/-- Apply one located skill package: `file_ops`, `add/` copies, `modify/`
merges; an operations failure returns early, a non-empty conflict list
yields `conflicted`, otherwise the skill is recorded successful and its
structured operations collected. -/
def applySkillPkg (env : Env) (s : String) (pkg : SkillPkg) (a : Acc) :
    StepRes :=
  match runFileOps env s pkg.manifest.fileOps a.w with
  | (false, errs, w) =>
    .early { success := false,
             perSkill := setStr a.perSkill s
               ⟨false, some ("File operations failed: " ++
                 joinSep "; " errs)⟩,
             mergeConflicts := none,
             error := some ("File ops failed for " ++ s) } w
  | (true, _, w) =>
    match applyModifies env pkg (applyAdds env pkg w) with
    | (w', []) =>
      .ok (collectStructured pkg.manifest
        { a with w := w', perSkill := setStr a.perSkill s ⟨true, none⟩ })
    | (w', c) =>
      .conflicted c
        { a with w := w',
                 perSkill := setStr a.perSkill s
                   ⟨false, some ("Merge conflicts: " ++ joinSep ", " c)⟩ }

def applySkillStep (env : Env) (skillDirs : List (String × String))
    (s : String) (a : Acc) : StepRes :=
  match lookupStr skillDirs s with
  | none =>
    .early { success := false,
             perSkill := setStr a.perSkill s
               ⟨false, some ("readManifest failed for " ++ s)⟩,
             mergeConflicts := none,
             error := some ("Replay failed for " ++ s ++ ": " ++
               ("readManifest failed for " ++ s)) } a.w
  | some dir =>
    match lookupStr env.pkgs dir with
    | none =>
      .early { success := false,
               perSkill := setStr a.perSkill s
                 ⟨false, some ("readManifest failed for " ++ dir)⟩,
               mergeConflicts := none,
               error := some ("Replay failed for " ++ s ++ ": " ++
                 ("readManifest failed for " ++ dir)) } a.w
    | some pkg => applySkillPkg env s pkg a

/-- Result of the replay loop over the whole skill list. -/
inductive LoopRes where
  | early (r : ReplayResult) (w : World)
  /-- `break` after the first skill with unresolved conflicts -/
  | broke (c : List String) (a : Acc)
  | finished (a : Acc)

/-- The replay loop: apply each skill in order, propagating early returns
and stopping at the first skill with unresolved conflicts. -/
def applyLoop (env : Env) (skillDirs : List (String × String)) :
    List String → Acc → LoopRes
  | [], a => .finished a
  | s :: rest, a =>
    match applySkillStep env skillDirs s a with
    | .early r w => .early r w
    | .conflicted c a' => .broke c a'
    | .ok a' => applyLoop env skillDirs rest a'

/-- The initial loop state. -/
def initAcc (w : World) : Acc :=
  { w := w, perSkill := [], npmDeps := [], hasNpm := false, envAdds := [],
    docker := [] }

/-- Steps 2 and 3 of `replaySkills` after a successful collection: reset
the collected files, then preload the resolution cache for the whole skill
list using the last skill directory, and form the initial loop state. -/
def replayPrep (env : Env) (skills : List String)
    (skillDirs : List (String × String)) (w : World)
    (files : List String) : Acc :=
  let w := resetPhase env w files
  let lastDir? :=
    match skills.getLast? with
    | some s => lookupStr skillDirs s
    | none => none
  initAcc (loadResolutions env skills lastDir? w).2

/-- Steps 4 and 5 of `replaySkills` after the loop: return the conflict
result on a break; otherwise apply the aggregated structured operations to
`package.json`, `.env.example` and `docker-compose.yml` and run
`npm install` (best-effort), then return success. -/
def npmMergeStep (senv : StructEnv) (hasNpm : Bool)
    (deps : List (String × String)) (w : World) : World :=
  if hasNpm then
    w.fsWrite "package.json"
      (senv.mergeNpm (lookupStr w.fs "package.json") deps)
  else w

def envMergeStep (senv : StructEnv) (adds : List String) (w : World) :
    World :=
  if adds.isEmpty then w
  else
    w.fsWrite ".env.example"
      (senv.mergeEnv (lookupStr w.fs ".env.example") adds)

def composeMergeStep (senv : StructEnv) (svcs : List (String × String))
    (w : World) : World :=
  if svcs.isEmpty then w
  else
    w.fsWrite "docker-compose.yml"
      (senv.mergeCompose (lookupStr w.fs "docker-compose.yml") svcs)

def npmInstallStep (senv : StructEnv) (hasNpm : Bool) (w : World) : World :=
  if hasNpm then
    { w with events := w.events ++ [Ev.npmInstall senv.npmInstallOk] }
  else w

def replayFinish (senv : StructEnv) : LoopRes → ReplayOut
  | .early r w => .done r w
  | .broke c a =>
    .done { success := false, perSkill := a.perSkill,
            mergeConflicts := some c,
            error := some ("Unresolved merge conflicts: " ++
              joinSep ", " c) } a.w
  | .finished a =>
    .done { success := true, perSkill := a.perSkill, mergeConflicts := none,
            error := none }
      (npmInstallStep senv a.hasNpm (composeMergeStep senv a.docker
        (envMergeStep senv a.envAdds
          (npmMergeStep senv a.hasNpm a.npmDeps a.w))))

/-- `replaySkills`: collect, reset, preload resolutions, apply each skill
in order, then aggregate structured operations. -/
def replaySkills (env : Env) (senv : StructEnv) (skills : List String)
    (skillDirs : List (String × String)) (w : World) : ReplayOut :=
  match collectTouched env skillDirs skills [] with
  | .missingDir s =>
    .done { success := false,
            perSkill := [(s, ⟨false,
              some ("Skill directory not found for: " ++ s)⟩)],
            mergeConflicts := none,
            error := some ("Missing skill directory for: " ++ s) } w
  | .thrown msg => .thrown msg w
  | .ok files =>
    replayFinish senv
      (applyLoop env skillDirs skills (replayPrep env skills skillDirs w files))

/-! ## Uninstall orchestrator (`src/skills-engine/uninstall.ts`) -/

/-- The `UninstallResult` record. -/
structure UninstallResult where
  success : Bool
  skill : String
  error : Option String
  customPatchWarning : Option String
  replayResults : Option (List (String × Bool))
deriving DecidableEq, Repr

/-- The rebase-lock error message of `uninstallSkill`. -/
def uninstallRebaseMsg : String :=
  "Cannot uninstall individual skills after rebase. The base includes all skill modifications. To remove a skill, start from a clean core and re-apply the skills you want."

/-- The custom-patch warning message of `uninstallSkill`. -/
def customPatchMsg (name desc : String) : String :=
  "Skill \"" ++ name ++ "\" has a custom patch (" ++ desc ++
    "). Uninstalling will lose these customizations. Re-run with confirmation to proceed."

/-- Step 4 of `uninstallSkill`: the set of files touched by any applied
skill or custom modification, in first-insertion order. -/
def backupPaths (st : SysState) : List String :=
  let l := st.applied_skills.foldl
    (fun acc sk => (sk.fileHashes.map Prod.fst).foldl insertUniq acc) []
  st.custom_modifications.foldl
    (fun acc m => m.files_modified.foldl insertUniq acc) l

/-- `createBackup` from `backup.ts`.  Modelled from the spec: snapshot the
given files (content, or their absence) so a later restore can put each
one back. -/
def createBackup (w : World) (files : List String) : World :=
  { w with backup := some (files.map (fun p => (p, lookupStr w.fs p))),
           events := w.events ++ [Ev.backupCreate] }

/-- Restore one snapshotted file: rewrite its saved content, or delete it
when it was absent at backup time. -/
def restoreOne (w : World) (pc : String × Option String) : World :=
  match pc.2 with
  | some c => w.fsWrite pc.1 c
  | none => if (lookupStr w.fs pc.1).isSome then w.fsErase pc.1 else w

/-- `restoreBackup` from `backup.ts`.  Modelled from the spec: put every
snapshotted file back to its backed-up state. -/
def restoreBackup (w : World) : World :=
  let w' :=
    match w.backup with
    | none => w
    | some snap => snap.foldl restoreOne w
  { w' with events := w'.events ++ [Ev.backupRestore] }

/-- `clearBackup` from `backup.ts`: discard the backup. -/
def clearBackup (w : World) : World :=
  { w with backup := none, events := w.events ++ [Ev.backupClear] }

/-- `writeState` from `state.ts`: persist the state document.  Modelled
from the spec: written atomically at the end of an operation. -/
def writeState (w : World) (st : SysState) : World :=
  { w with stateDoc := st, events := w.events ++ [Ev.stateWrite] }

/-- `acquireLock` from `lock.ts` (the success path; modelled from the
spec as mutual exclusion, recorded as an event). -/
def lockW (w : World) : World :=
  { w with events := w.events ++ [Ev.lock] }

/-- `releaseLock` (the `finally` block). -/
def unlockW (w : World) : World :=
  { w with events := w.events ++ [Ev.unlock] }

/-- Step 6 of `uninstallSkill`: locate every remaining skill package
directory, failing on the first missing one. -/
def locateDirs (env : Env) :
    List String → List (String × String) → String ⊕ List (String × String)
  | [], acc => .inr acc
  | n :: rest, acc =>
    match env.findSkillDir n with
    | none => .inl n
    | some d => locateDirs env rest (acc ++ [(n, d)])

/-- A failing return of `uninstallSkill` after the backup exists: restore
the backup, clear it, return the error, release the lock. -/
def failRestore (name msg : String) (w : World) : UninstallResult × World :=
  let w := clearBackup (restoreBackup w)
  ({ success := false, skill := name, error := some msg,
     customPatchWarning := none, replayResults := none }, unlockW w)

/-- Step 7 of `uninstallSkill`: reset files exclusively owned by the
removed skill (no remaining skill also touches them) directly to base, or
delete them when add-only. -/
def resetExclusive (env : Env) (st : SysState) (name : String)
    (entry : AppliedSkill) (w : World) : World :=
  let remainingFiles := (st.applied_skills.filter
      (fun s => s.name != name)).foldl
    (fun acc sk => (sk.fileHashes.map Prod.fst).foldl insertUniq acc) []
  (entry.fileHashes.map Prod.fst).foldl
    (fun w p => if p ∈ remainingFiles then w else resetFile env w p) w

/-- Step 10 of `uninstallSkill`: best-effort re-application of standalone
custom patches whose patch file exists. -/
def applyCustomMods (env : Env) (mods : List CustomMod) (w : World) : World :=
  mods.foldl (fun w m =>
    if (lookupStr w.fs m.patch_file).isSome then
      { w with fs := env.applyPatch m.patch_file w.fs,
               events := w.events ++ [Ev.gitApply m.patch_file] }
    else w) w

/-- Step 11 of `uninstallSkill`: run the declared test command of every
remaining skill that has one. -/
def runSkillTests (env : Env) (st : SysState) (name : String) :
    List (String × Bool) :=
  (st.applied_skills.filter (fun s => s.name != name)).filterMap
    (fun s => s.testCmd.map (fun c => (s.name, env.runTest c)))

/-- Refresh the recorded hashes of one remaining skill from the files
actually on disk, dropping entries for missing files. -/
def refreshHashes (env : Env) (w : World) (sk : AppliedSkill) : AppliedSkill :=
  let nh := (sk.fileHashes.map Prod.fst).filterMap
    (fun p => (lookupStr w.fs p).map (fun c => (p, env.hash c)))
  { sk with fileHashes := nh }

/-- The `try` block of `uninstallSkill` (after the lock is held): back up,
locate remaining skill packages, reset exclusive files, replay, re-apply
custom patches, run tests, and either roll back or persist the new state. -/
def uninstallCore (env : Env) (senv : StructEnv) (name : String)
    (entry : AppliedSkill) (st : SysState) (w : World) :
    UninstallResult × World :=
  let w := createBackup w (backupPaths st)
  let remaining :=
    (st.applied_skills.filter (fun s => s.name != name)).map AppliedSkill.name
  match locateDirs env remaining [] with
  | .inl missing =>
    failRestore name ("Cannot find skill package for \"" ++ missing ++
      "\" in .gemini/skills/. All remaining skills must be available for replay.") w
  | .inr dirs =>
    let w := resetExclusive env st name entry w
    match replaySkills env senv remaining dirs w with
    | .thrown msg w => failRestore name msg w
    | .done r w =>
      if r.success = false then
        failRestore name ("Replay failed: " ++ r.error.getD "") w
      else
        let w := applyCustomMods env st.custom_modifications w
        let results := runSkillTests env st name
        let failures := results.filter (fun nb => !nb.2)
        if failures.isEmpty then
          let newSkills := (st.applied_skills.filter
            (fun s => s.name != name)).map (refreshHashes env w)
          let w := writeState w { st with applied_skills := newSkills }
          let w := clearBackup w
          ({ success := true, skill := name, error := none,
             customPatchWarning := none,
             replayResults := if results.isEmpty then none else some results },
            unlockW w)
        else
          let w := clearBackup (restoreBackup w)
          ({ success := false, skill := name,
             error := some ("Tests failed after uninstall: " ++
               joinSep ", " (failures.map Prod.fst)),
             customPatchWarning := none, replayResults := some results },
            unlockW w)

/-- `uninstallSkill`: the three precondition checks (rebase lock, skill
applied, custom-patch warning), then the locked transactional core. -/
def uninstallSkill (env : Env) (senv : StructEnv) (skillName : String)
    (w : World) : UninstallResult × World :=
  let st := w.stateDoc
  if st.rebased_at.isSome then
    ({ success := false, skill := skillName, error := some uninstallRebaseMsg,
       customPatchWarning := none, replayResults := none }, w)
  else
    match st.applied_skills.find? (fun s => s.name == skillName) with
    | none =>
      ({ success := false, skill := skillName,
         error := some ("Skill \"" ++ skillName ++ "\" is not applied."),
         customPatchWarning := none, replayResults := none }, w)
    | some entry =>
      if entry.custom_patch.isSome then
        ({ success := false, skill := skillName, error := none,
           customPatchWarning := some (customPatchMsg skillName
             (entry.custom_patch_description.getD "no description")),
           replayResults := none }, w)
      else
        uninstallCore env senv skillName entry st (lockW w)

/-! ## Concrete fixtures

Small closed instances used to evaluate the model at concrete inputs.
`cMergeFile` is a whole-file diff3: clean when at most one side changed
relative to base or both sides agree, a marker-bracketed conflict
otherwise — enough to realise the end-to-end example of the spec. -/

def cMergeFile (ours b theirs : String) : MergeOut :=
  if b = ours then MergeOut.mk true theirs
  else if b = theirs then MergeOut.mk true ours
  else if ours = theirs then MergeOut.mk true ours
  else MergeOut.mk false
    ("<<<<<<<\n" ++ ours ++ "=======\n" ++ theirs ++ ">>>>>>>\n")

/-- A manifest that only modifies `src/x.ts`. -/
def manX : Manifest where
  adds := []
  modifies := ["src/x.ts"]
  fileOps := []
  npmDeps := none
  envAdditions := []
  dockerServices := []

def pkgA : SkillPkg where
  manifest := manX
  addFiles := []
  modifyFiles := [("src/x.ts", "line1-from-A\n")]

def pkgB : SkillPkg where
  manifest := manX
  addFiles := []
  modifyFiles := [("src/x.ts", "line1-from-B\n")]

/-- A skill package holding a `modify/src/config.ts` proposal, used by the
resolution-cache fixtures. -/
def pkgC : SkillPkg where
  manifest :=
    { adds := [], modifies := ["src/config.ts"], fileOps := [],
      npmDeps := none, envAdditions := [], dockerServices := [] }
  addFiles := []
  modifyFiles := [("src/config.ts", "skillc")]

/-- A skill consisting only of structured npm dependencies. -/
def pkgN : SkillPkg where
  manifest :=
    { adds := [], modifies := [], fileOps := [],
      npmDeps := some [("lodash", "1.0.0")], envAdditions := [],
      dockerServices := [] }
  addFiles := []
  modifyFiles := []

def cEnv : Env where
  pkgs := [("dirA", pkgA), ("dirB", pkgB), ("dirN", pkgN)]
  pathRemap := id
  mergeFile := cMergeFile
  isGitRepo := false
  rerere := fun _ _ => none
  execFileOps := fun _ fs => (true, [], fs)
  findSkillDir := fun _ => none
  runTest := fun _ => true
  applyPatch := fun _ fs => fs
  hash := fun s => "#" ++ s
  dirs := []
  metaOf := fun _ => none
  pairsOf := fun _ => []
  gitDir := none

def cSenv : StructEnv where
  mergeNpm := fun _ _ => "pkg-merged"
  mergeEnv := fun _ _ => "env-merged"
  mergeCompose := fun _ _ => "dc-merged"
  npmInstallOk := true

/-- A second structured environment, differing in every field. -/
def cSenv2 : StructEnv where
  mergeNpm := fun _ _ => "pkg-other"
  mergeEnv := fun _ _ => "env-other"
  mergeCompose := fun _ _ => "dc-other"
  npmInstallOk := false

def cDirs : List (String × String) :=
  [("A", "dirA"), ("B", "dirB"), ("N", "dirN")]

def cState : SysState where
  rebased_at := none
  applied_skills := []
  custom_modifications := []

/-- Base and working tree both hold `line1` in `src/x.ts`. -/
def cW : World where
  fs := [("src/x.ts", "line1\n")]
  base := [("src/x.ts", "line1\n")]
  stateDoc := cState
  backup := none
  rrCache := []
  events := []

/-- The recorded hash triple of the resolution-cache fixture, matching
`cEnv.hash` of the contents `basec`, `curc`, `skillc`. -/
def cTriple : FileInputHashes where
  base := "#basec"
  current := "#curc"
  skill := "#skillc"

def cMeta : MetaDoc where
  inputHashesPresent := true
  fileHashes := [("src/config.ts", cTriple)]

def cPair : Pair where
  relPath := "src/config.ts"
  preimageContent := "pre-conflict"
  resolutionContent := "post-resolved"
  sidecar := some "abc123\n"

/-- Environment with a shipped resolution directory for `alpha+beta`,
whose single pair fully matches the on-disk inputs, inside a git
repository. -/
def cEnvRC : Env :=
  { cEnv with
    pkgs := [("skill-pkg", pkgC)],
    dirs := [pjoin SHIPPED_RESOLUTIONS_DIR "alpha+beta"],
    metaOf := fun d =>
      if d = pjoin SHIPPED_RESOLUTIONS_DIR "alpha+beta" then some cMeta
      else none,
    pairsOf := fun d =>
      if d = pjoin SHIPPED_RESOLUTIONS_DIR "alpha+beta" then [cPair] else [],
    gitDir := some ".git" }

/-- The same environment outside a git repository
(`git rev-parse --git-dir` fails). -/
def cEnvNG : Env := { cEnvRC with gitDir := none }

/-- Working tree and base snapshot matching `cTriple`. -/
def cWrc : World where
  fs := [("src/config.ts", "curc")]
  base := [("src/config.ts", "basec")]
  stateDoc := cState
  backup := none
  rrCache := []
  events := []

/-- Environment where both a shipped and a local resolution directory
exist for the key `alpha+beta`. -/
def cEnvBoth : Env :=
  { cEnv with
    dirs := [pjoin SHIPPED_RESOLUTIONS_DIR "alpha+beta",
             pjoin RESOLUTIONS_DIR "alpha+beta"] }

/-- A rebased state document. -/
def cStateReb : SysState where
  rebased_at := some "2024-01-01T00:00:00.000Z"
  applied_skills :=
    [{ name := "telegram", fileHashes := [("src/config.ts", "abc")],
       custom_patch := none, custom_patch_description := none,
       testCmd := none }]
  custom_modifications := []

def cWreb : World := { cW with stateDoc := cStateReb }

/-- An applied skill carrying a custom patch. -/
def cSkillCP : AppliedSkill where
  name := "telegram"
  fileHashes := []
  custom_patch := some ".nanoclaw/custom/001.patch"
  custom_patch_description := some "My tweak"
  testCmd := none

def cWcp : World :=
  { cW with stateDoc :=
      { rebased_at := none, applied_skills := [cSkillCP],
        custom_modifications := [] } }

/-- Two applied skills without custom patches; used to drive an uninstall
into its failure path (no skill package can be located, since
`cEnv.findSkillDir` always fails). -/
def cStateTwo : SysState where
  rebased_at := none
  applied_skills :=
    [{ name := "telegram", fileHashes := [("src/x.ts", "h1")],
       custom_patch := none, custom_patch_description := none,
       testCmd := none },
     { name := "discord", fileHashes := [("src/y.ts", "h2")],
       custom_patch := none, custom_patch_description := none,
       testCmd := none }]
  custom_modifications := []

def cWtwo : World :=
  { cW with
    fs := [("src/x.ts", "telegram-version\n"), ("src/y.ts", "discord-code\n")],
    stateDoc := cStateTwo }

/-- The world carried by a per-skill step outcome. -/
def StepRes.world : StepRes → World
  | .early _ w => w
  | .conflicted _ a => a.w
  | .ok a => a.w

/-- The world carried by a loop outcome. -/
def LoopRes.world : LoopRes → World
  | .early _ w => w
  | .broke _ a => a.w
  | .finished a => a.w

/-- The world carried by a replay outcome. -/
def ReplayOut.world : ReplayOut → World
  | .thrown _ w => w
  | .done _ w => w

/-- `w'` evolved from `w` by the ordinary side effects of a replay-layer
operation: the persisted state document and the backup area are untouched
and the event trace only grows, never by a `writeState`. -/
def Preserves (w w' : World) : Prop :=
  w'.stateDoc = w.stateDoc ∧ w'.backup = w.backup ∧
    ∃ evs, w'.events = w.events ++ evs ∧ Ev.stateWrite ∉ evs

/-- The `perSkill` record of the stop-on-conflict fixture run. -/
def cPerSkill1 : List (String × SkillOutcome) :=
  [("A", ⟨true, none⟩), ("B", ⟨false, some "Merge conflicts: src/x.ts"⟩)]

/-- The result record of the stop-on-conflict fixture run. -/
def cR1 : ReplayResult where
  success := false
  perSkill := cPerSkill1
  mergeConflicts := some ["src/x.ts"]
  error := some "Unresolved merge conflicts: src/x.ts"

/-- The world after the stop-on-conflict fixture run: the conflict-marked
merge output is left in `src/x.ts`. -/
def cW1 : World where
  fs := [("src/x.ts",
    "<<<<<<<\nline1-from-A\n=======\nline1-from-B\n>>>>>>>\n")]
  base := [("src/x.ts", "line1\n")]
  stateDoc := cState
  backup := none
  rrCache := []
  events := [Ev.write "src/x.ts", Ev.write "src/x.ts", Ev.write "src/x.ts"]

/-! ## Theorems -/

/-- Claim C8: for every skill set whose sorted, `+`-joined key has both a
maintainer-shipped resolution directory (under `.gemini/resolutions`) and a
locally generated one (under `.nanoclaw/resolutions`), `findResolutionDir`
returns the shipped directory; the local directory is returned only when
no shipped one exists, and `null` is returned when neither exists. -/
theorem claim_c8_shipped_priority (env : Env) (skills : List String) :
    (pjoin SHIPPED_RESOLUTIONS_DIR (resolutionKey skills) ∈ env.dirs →
      findResolutionDir env skills =
        some (pjoin SHIPPED_RESOLUTIONS_DIR (resolutionKey skills))) ∧
    (pjoin SHIPPED_RESOLUTIONS_DIR (resolutionKey skills) ∉ env.dirs →
      pjoin RESOLUTIONS_DIR (resolutionKey skills) ∈ env.dirs →
      findResolutionDir env skills =
        some (pjoin RESOLUTIONS_DIR (resolutionKey skills))) ∧
    (pjoin SHIPPED_RESOLUTIONS_DIR (resolutionKey skills) ∉ env.dirs →
      pjoin RESOLUTIONS_DIR (resolutionKey skills) ∉ env.dirs →
      findResolutionDir env skills = none) := by
  refine ⟨fun h => ?_, fun h1 h2 => ?_, fun h1 h2 => ?_⟩ <;>
    simp [findResolutionDir, *]

/-- Witness for C8 at a concrete environment where both the shipped and
the local resolution directory exist for the key (given unsorted). -/
theorem claim_c8_witness :
    pjoin SHIPPED_RESOLUTIONS_DIR (resolutionKey ["beta", "alpha"]) ∈
      cEnvBoth.dirs ∧
    pjoin RESOLUTIONS_DIR (resolutionKey ["beta", "alpha"]) ∈ cEnvBoth.dirs ∧
    findResolutionDir cEnvBoth ["beta", "alpha"] =
      some (pjoin SHIPPED_RESOLUTIONS_DIR (resolutionKey ["beta", "alpha"])) :=
  ⟨by decide, by decide,
    (claim_c8_shipped_priority cEnvBoth ["beta", "alpha"]).1 (by decide)⟩

/-- Claim C10: when the project root is not inside a git repository
(`git rev-parse --git-dir` fails), `loadResolutions` returns false and
seeds nothing — the returned world is the input world unchanged — even
when a matching resolution directory exists. -/
theorem claim_c10_requires_git_repo (env : Env) (skills : List String)
    (skillDir? : Option String) (w : World) (hg : env.gitDir = none) :
    loadResolutions env skills skillDir? w = (false, w) := by
  cases hf : findResolutionDir env skills with
  | none => simp [loadResolutions, hf]
  | some resDir =>
    cases hm : env.metaOf resDir with
    | none => simp [loadResolutions, hf, hm]
    | some m =>
      by_cases hp : m.inputHashesPresent <;>
        simp [loadResolutions, hf, hm, hp, hg]

/-- Witness for C10: a concrete non-git environment whose resolution
directory, meta document and hash triples all match the on-disk inputs,
yet nothing is loaded. -/
theorem claim_c10_witness :
    cEnvNG.gitDir = none ∧
    pairLoadOk cEnvNG (some "skill-pkg") cMeta cWrc cPair = true ∧
    loadResolutions cEnvNG ["alpha", "beta"] (some "skill-pkg") cWrc =
      (false, cWrc) :=
  ⟨rfl, by decide,
    claim_c10_requires_git_repo cEnvNG ["alpha", "beta"] (some "skill-pkg")
      cWrc rfl⟩

/-- Claim C4: whenever `rebased_at` is set, `uninstallSkill` returns
`success = false` with the rebase error (whose text contains
"after rebase"), for every skill name, and the world is returned entirely
unchanged — no lock acquisition, no backup, no file or state mutation, no
event at all. -/
theorem claim_c4_rebase_lock (env : Env) (senv : StructEnv)
    (skillName : String) (w : World) (t : String)
    (h : w.stateDoc.rebased_at = some t) :
    uninstallSkill env senv skillName w =
      ({ success := false, skill := skillName,
         error := some uninstallRebaseMsg,
         customPatchWarning := none, replayResults := none }, w) ∧
    uninstallRebaseMsg =
      "Cannot uninstall individual skills " ++ "after rebase" ++
        ". The base includes all skill modifications. To remove a skill, start from a clean core and re-apply the skills you want." := by
  refine ⟨?_, rfl⟩
  simp [uninstallSkill, h]

/-- Witness for C4 at a concrete rebased state. -/
theorem claim_c4_witness :
    cWreb.stateDoc.rebased_at = some "2024-01-01T00:00:00.000Z" ∧
    uninstallSkill cEnv cSenv "telegram" cWreb =
      ({ success := false, skill := "telegram",
         error := some uninstallRebaseMsg,
         customPatchWarning := none, replayResults := none }, cWreb) :=
  ⟨rfl, (claim_c4_rebase_lock cEnv cSenv "telegram" cWreb
    "2024-01-01T00:00:00.000Z" rfl).1⟩

/-- Claim C5 (recorded as a code bug): `uninstallSkill` takes only the
skill name — there is no confirmation input at all — and whenever the
named skill is applied and carries a custom patch it returns
`success = false` with the warning, leaving the world unchanged.  No call
can proceed past the warning, contradicting the surface-but-do-not-block
comment in the source and its own "Re-run with confirmation to proceed"
message. -/
theorem claim_c5_custom_patch_always_blocks (env : Env) (senv : StructEnv)
    (skillName : String) (w : World) (entry : AppliedSkill) (p : String)
    (hreb : w.stateDoc.rebased_at = none)
    (hfind : w.stateDoc.applied_skills.find?
      (fun s => s.name == skillName) = some entry)
    (hcp : entry.custom_patch = some p) :
    uninstallSkill env senv skillName w =
      ({ success := false, skill := skillName, error := none,
         customPatchWarning := some (customPatchMsg skillName
           (entry.custom_patch_description.getD "no description")),
         replayResults := none }, w) := by
  simp [uninstallSkill, hreb, hfind, hcp]

/-- Witness for C5: the concrete custom-patch state of the repository's
own test suite; the call is blocked. -/
theorem claim_c5_witness :
    cWcp.stateDoc.applied_skills.find?
      (fun s => s.name == "telegram") = some cSkillCP ∧
    cSkillCP.custom_patch = some ".nanoclaw/custom/001.patch" ∧
    uninstallSkill cEnv cSenv "telegram" cWcp =
      ({ success := false, skill := "telegram", error := none,
         customPatchWarning := some (customPatchMsg "telegram" "My tweak"),
         replayResults := none }, cWcp) :=
  ⟨by decide, rfl,
    claim_c5_custom_patch_always_blocks cEnv cSenv "telegram" cWcp cSkillCP
      ".nanoclaw/custom/001.patch" rfl (by decide) rfl⟩

/-- One iteration of the `loadResolutions` pair loop either seeds the
rr-cache entry (when every check passes) or leaves the accumulator
untouched. -/
theorem loadOnePair_eq (env : Env) (skillDir? : Option String) (m : MetaDoc)
    (w : World) (loaded : Bool) (pr : Pair) :
    loadOnePair env skillDir? m (w, loaded) pr =
      if pairLoadOk env skillDir? m w pr then
        (w.rrSeed pr.token pr.preimageContent pr.resolutionContent
          pr.relPath, true)
      else (w, loaded) := by
  unfold loadOnePair pairLoadOk
  cases hfh : lookupStr m.fileHashes pr.relPath with
  | none => simp [*]
  | some expected =>
    cases hb : lookupStr w.base pr.relPath with
    | none =>
      cases hc : lookupStr w.fs pr.relPath <;>
        cases hs : modifyContent env skillDir? pr.relPath <;> simp [*]
    | some bC =>
      cases hc : lookupStr w.fs pr.relPath with
      | none => cases hs : modifyContent env skillDir? pr.relPath <;> simp [*]
      | some cC =>
        cases hs : modifyContent env skillDir? pr.relPath with
        | none => simp [*]
        | some sC =>
          by_cases h1 : env.hash bC = expected.base
          · by_cases h2 : env.hash cC = expected.current
            · by_cases h3 : env.hash sC = expected.skill
              · cases hsd : pr.sidecar with
                | none => simp [Pair.token, *]
                | some s =>
                  by_cases h4 : strTrim s = "" <;>
                    simp [Pair.token, *]
              · simp [*]
            · simp [*]
          · simp [*]

/-- The `loadResolutions` pair loop seeds exactly the pairs passing all
checks (evaluated against the world at loop entry; the loop only adds
rr-cache entries, which the checks never read), in order, and reports
whether the accumulator was ever set. -/
theorem loadPairs_foldl (env : Env) (skillDir? : Option String) (m : MetaDoc)
    (w0 : World) :
    ∀ (l : List Pair) (w : World) (loaded : Bool),
      w.base = w0.base → w.fs = w0.fs →
      l.foldl (loadOnePair env skillDir? m) (w, loaded) =
        ({ w with
            rrCache :=
              (l.filter (fun pr => pairLoadOk env skillDir? m w0 pr)).foldl
                (fun rc pr =>
                  setStr rc pr.token (pr.preimageContent, pr.resolutionContent))
                w.rrCache,
            events := w.events ++
              (l.filter (fun pr => pairLoadOk env skillDir? m w0 pr)).map
                (fun pr => Ev.rrSeed pr.token pr.relPath) },
          loaded || l.any (fun pr => pairLoadOk env skillDir? m w0 pr)) := by
  intro l
  induction l with
  | nil => intro w loaded hb hf; simp
  | cons pr rest ih =>
    intro w loaded hb hf
    rw [List.foldl_cons, loadOnePair_eq]
    have hok : pairLoadOk env skillDir? m w pr =
        pairLoadOk env skillDir? m w0 pr := by
      unfold pairLoadOk
      rw [hb, hf]
    by_cases h : pairLoadOk env skillDir? m w0 pr = true
    · rw [hok, if_pos h]
      rw [ih (w.rrSeed pr.token pr.preimageContent pr.resolutionContent
          pr.relPath) true hb hf]
      simp [World.rrSeed, h, List.filter_cons, List.any_cons]
    · rw [hok, if_neg h]
      rw [ih w loaded hb hf]
      simp only [Bool.not_eq_true] at h
      simp [h, List.filter_cons, List.any_cons]

/-- Claim C2, amended: *provided the parsed meta document records
`input_hashes` and the project root is inside a git repository*, the
rr-cache is seeded with exactly those preimage/resolution pairs whose
`file_hashes` entry exists, whose three input files (base snapshot file,
current working file, skill `modify/` file) exist with hashes equal to the
recorded triple, and whose sidecar token is non-empty; pairs failing any
check are skipped individually, and `loadResolutions` returns true exactly
when at least one pair was seeded. -/
theorem claim_c2_amended_hash_gated_seeding (env : Env)
    (skills : List String) (skillDir? : Option String) (w : World)
    (resDir : String) (m : MetaDoc) (g : String)
    (hf : findResolutionDir env skills = some resDir)
    (hm : env.metaOf resDir = some m)
    (hp : m.inputHashesPresent = true)
    (hg : env.gitDir = some g) :
    loadResolutions env skills skillDir? w =
      ((env.pairsOf resDir).any (fun pr => pairLoadOk env skillDir? m w pr),
       { w with
          rrCache :=
            ((env.pairsOf resDir).filter
              (fun pr => pairLoadOk env skillDir? m w pr)).foldl
              (fun rc pr =>
                setStr rc pr.token (pr.preimageContent, pr.resolutionContent))
              w.rrCache,
          events := w.events ++
            ((env.pairsOf resDir).filter
              (fun pr => pairLoadOk env skillDir? m w pr)).map
              (fun pr => Ev.rrSeed pr.token pr.relPath) }) := by
  simp only [loadResolutions, hf, hm, hg, hp, eq_self_iff_true, not_true,
    if_false, ite_false]
  by_cases hpe : (env.pairsOf resDir).isEmpty = true
  · rw [List.isEmpty_iff.mp hpe]
    simp
  · rw [if_neg hpe,
      loadPairs_foldl env skillDir? m w (env.pairsOf resDir) w false rfl rfl]
    simp

/-- Counterexample to C2 as stated: a call that finds a resolution
directory with a parseable meta document and a pair meeting every stated
condition (all three input files exist, all three hashes match, non-empty
sidecar token), yet — because the project root is not inside a git
repository — nothing is seeded and the function returns false. -/
theorem claim_c2_counterexample :
    findResolutionDir cEnvNG ["alpha", "beta"] =
      some (pjoin SHIPPED_RESOLUTIONS_DIR "alpha+beta") ∧
    cEnvNG.metaOf (pjoin SHIPPED_RESOLUTIONS_DIR "alpha+beta") = some cMeta ∧
    cEnvNG.pairsOf (pjoin SHIPPED_RESOLUTIONS_DIR "alpha+beta") = [cPair] ∧
    lookupStr cMeta.fileHashes cPair.relPath = some cTriple ∧
    lookupStr cWrc.base cPair.relPath = some "basec" ∧
    cEnvNG.hash "basec" = cTriple.base ∧
    lookupStr cWrc.fs cPair.relPath = some "curc" ∧
    cEnvNG.hash "curc" = cTriple.current ∧
    modifyContent cEnvNG (some "skill-pkg") cPair.relPath = some "skillc" ∧
    cEnvNG.hash "skillc" = cTriple.skill ∧
    cPair.token = "abc123" ∧
    loadResolutions cEnvNG ["alpha", "beta"] (some "skill-pkg") cWrc =
      (false, cWrc) := by
  decide

/-- Witness for the amended C2 at the concrete matching environment inside
a git repository: the single matching pair is seeded and the function
returns true. -/
theorem claim_c2_witness :
    loadResolutions cEnvRC ["alpha", "beta"] (some "skill-pkg") cWrc =
      (true,
       { cWrc with
          rrCache := [("abc123", ("pre-conflict", "post-resolved"))],
          events := [Ev.rrSeed "abc123" "src/config.ts"] }) :=
  (claim_c2_amended_hash_gated_seeding cEnvRC ["alpha", "beta"]
    (some "skill-pkg") cWrc (pjoin SHIPPED_RESOLUTIONS_DIR "alpha+beta")
    cMeta ".git" rfl rfl rfl rfl).trans (by decide)

/-- A reset never touches the base snapshot. -/
theorem resetFile_base (env : Env) (w : World) (p : String) :
    (resetFile env w p).base = w.base := by
  unfold resetFile
  cases h : lookupStr w.base (env.pathRemap p) with
  | some c => simp [h, World.fsWrite]
  | none =>
    simp only [h]
    split <;> simp [World.fsErase]

/-- Effect of resetting one path on the working tree: at the remapped
path the tree afterwards agrees with the base snapshot (content when the
base has the file, absence otherwise); other paths are untouched. -/
theorem resetFile_fs (env : Env) (w : World) (p q : String) :
    lookupStr (resetFile env w p).fs q =
      if env.pathRemap p = q then lookupStr w.base q
      else lookupStr w.fs q := by
  unfold resetFile
  by_cases hpq : env.pathRemap p = q
  · rw [hpq]
    cases h : lookupStr w.base q with
    | some c => simp [h, hpq, World.fsWrite, lookupStr_setStr]
    | none =>
      simp only [h]
      split
      · simp [hpq, World.fsErase, lookupStr_eraseStr, h]
      · next h2 =>
        cases hfq : lookupStr w.fs q with
        | none => simp [h, hfq]
        | some c => simp [hfq] at h2
  · cases h : lookupStr w.base (env.pathRemap p) with
    | some c => simp [h, hpq, Ne.symm hpq, World.fsWrite, lookupStr_setStr]
    | none =>
      simp only [h]
      split
      · simp [hpq, Ne.symm hpq, World.fsErase, lookupStr_eraseStr]
      · simp [hpq]

/-- The whole reset phase never touches the base snapshot. -/
theorem resetPhase_base (env : Env) :
    ∀ (files : List String) (w : World),
      (resetPhase env w files).base = w.base := by
  intro files
  induction files with
  | nil => intro w; rfl
  | cons p rest ih =>
    intro w
    have hstep : resetPhase env w (p :: rest) =
        resetPhase env (resetFile env w p) rest := rfl
    rw [hstep, ih (resetFile env w p), resetFile_base]

/-- Effect of the whole reset phase on the working tree: a path hit by
some remapped collected file afterwards agrees with the base snapshot
(restored when present there, deleted otherwise); every other path is
untouched. -/
theorem resetPhase_fs (env : Env) :
    ∀ (files : List String) (w : World) (q : String),
      lookupStr (resetPhase env w files).fs q =
        if ∃ p ∈ files, env.pathRemap p = q then lookupStr w.base q
        else lookupStr w.fs q := by
  intro files
  induction files with
  | nil => intro w q; simp [resetPhase]
  | cons p rest ih =>
    intro w q
    have hstep : resetPhase env w (p :: rest) =
        resetPhase env (resetFile env w p) rest := rfl
    rw [hstep, ih (resetFile env w p) q]
    by_cases hr : ∃ p' ∈ rest, env.pathRemap p' = q
    · have hrc : ∃ p' ∈ p :: rest, env.pathRemap p' = q := by
        obtain ⟨p', hp', hq⟩ := hr
        exact ⟨p', List.mem_cons_of_mem _ hp', hq⟩
      rw [if_pos hr, if_pos hrc, resetFile_base]
    · by_cases hpq : env.pathRemap p = q
      · have hrc : ∃ p' ∈ p :: rest, env.pathRemap p' = q :=
          ⟨p, List.mem_cons_self p rest, hpq⟩
        rw [if_neg hr, if_pos hrc, resetFile_fs, if_pos hpq]
      · have hrc : ¬ ∃ p' ∈ p :: rest, env.pathRemap p' = q := by
          rintro ⟨p', hp', hq⟩
          rcases List.mem_cons.mp hp' with h | h
          · exact hpq (h ▸ hq)
          · exact hr ⟨p', h, hq⟩
        rw [if_neg hr, if_neg hrc, resetFile_fs, if_neg hpq]

/-- Membership in a JavaScript-`Set`-style fold. -/
theorem mem_foldl_insertUniq :
    ∀ (l acc : List String) (p : String),
      p ∈ l.foldl insertUniq acc ↔ p ∈ acc ∨ p ∈ l := by
  intro l
  induction l with
  | nil => intro acc p; simp
  | cons x rest ih =>
    intro acc p
    rw [List.foldl_cons, ih]
    unfold insertUniq
    by_cases hx : x ∈ acc
    · rw [if_pos hx]
      constructor
      · rintro (h | h)
        · exact Or.inl h
        · exact Or.inr (List.mem_cons_of_mem _ h)
      · rintro (h | h)
        · exact Or.inl h
        · rcases List.mem_cons.mp h with h | h
          · exact Or.inl (h ▸ hx)
          · exact Or.inr h
    · rw [if_neg hx]
      simp [List.mem_append, List.mem_cons, or_assoc]

/-- The collection step succeeds exactly on the union of `adds` and
`modifies` over the skill list (plus whatever was already collected). -/
theorem collectTouched_ok_mem (env : Env)
    (skillDirs : List (String × String)) :
    ∀ (skills acc files : List String),
      collectTouched env skillDirs skills acc = .ok files →
      ∀ p, p ∈ files ↔ p ∈ acc ∨ ∃ s, s ∈ skills ∧ ∃ d pkg,
        lookupStr skillDirs s = some d ∧ lookupStr env.pkgs d = some pkg ∧
        (p ∈ pkg.manifest.adds ∨ p ∈ pkg.manifest.modifies) := by
  intro skills
  induction skills with
  | nil =>
    intro acc files h p
    unfold collectTouched at h
    cases h
    simp
  | cons s rest ih =>
    intro acc files h p
    unfold collectTouched at h
    split at h
    · exact CollectRes.noConfusion h
    · next dir hd =>
      split at h
      · exact CollectRes.noConfusion h
      · next pkg hp =>
        rw [ih _ _ h p, mem_foldl_insertUniq]
        constructor
        · rintro ((hacc | hadd) | ⟨s', hs', d', pkg', hd', hp', hmem⟩)
          · exact Or.inl hacc
          · refine Or.inr ⟨s, List.mem_cons_self s rest, dir, pkg, hd, hp, ?_⟩
            rcases List.mem_append.mp hadd with h' | h'
            · exact Or.inl h'
            · exact Or.inr h'
          · exact Or.inr ⟨s', List.mem_cons_of_mem _ hs', d', pkg', hd', hp',
              hmem⟩
        · rintro (hacc | ⟨s', hs', d', pkg', hd', hp', hmem⟩)
          · exact Or.inl (Or.inl hacc)
          · rcases List.mem_cons.mp hs' with h' | h'
            · subst h'
              rw [hd] at hd'
              cases hd'
              rw [hp] at hp'
              cases hp'
              refine Or.inl (Or.inr (List.mem_append.mpr ?_))
              rcases hmem with h'' | h''
              · exact Or.inl h''
              · exact Or.inr h''
            · exact Or.inr ⟨s', h', d', pkg', hd', hp', hmem⟩

/-- Claim C6: before applying any skill, `replaySkills` resets every path
in the union of `adds` and `modifies` across the full skill list: at each
remapped collected path the working tree afterwards equals the base
snapshot (overwritten with base content when present there, deleted
otherwise); paths outside the remapped union are not touched; the
collected list is exactly that union; and `replaySkills` proceeds from
the reset (and preloaded) world into the per-skill loop. -/
theorem claim_c6_reset_to_base (env : Env) (senv : StructEnv)
    (skills : List String) (skillDirs : List (String × String))
    (files : List String) (w : World)
    (hc : collectTouched env skillDirs skills [] = .ok files) :
    (∀ p ∈ files,
      lookupStr (resetPhase env w files).fs (env.pathRemap p) =
        lookupStr w.base (env.pathRemap p)) ∧
    (∀ q, (∀ p ∈ files, env.pathRemap p ≠ q) →
      lookupStr (resetPhase env w files).fs q = lookupStr w.fs q) ∧
    (∀ p, p ∈ files ↔ ∃ s, s ∈ skills ∧ ∃ d pkg,
      lookupStr skillDirs s = some d ∧ lookupStr env.pkgs d = some pkg ∧
      (p ∈ pkg.manifest.adds ∨ p ∈ pkg.manifest.modifies)) ∧
    replaySkills env senv skills skillDirs w =
      replayFinish senv (applyLoop env skillDirs skills
        (replayPrep env skills skillDirs w files)) := by
  refine ⟨?_, ?_, ?_, ?_⟩
  · intro p hp
    rw [resetPhase_fs, if_pos ⟨p, hp, rfl⟩]
  · intro q hq
    rw [resetPhase_fs, if_neg]
    rintro ⟨p, hp, hq'⟩
    exact hq p hp hq'
  · intro p
    rw [collectTouched_ok_mem env skillDirs skills [] files hc p]
    simp
  · unfold replaySkills
    rw [hc]

/-- Witness for C6 at the two-skill fixture: `src/x.ts` is collected and
reset to its base content, and an unrelated path is untouched. -/
theorem claim_c6_witness :
    lookupStr (resetPhase cEnv cW ["src/x.ts"]).fs
        (cEnv.pathRemap "src/x.ts") =
      lookupStr cW.base (cEnv.pathRemap "src/x.ts") ∧
    lookupStr (resetPhase cEnv cW ["src/x.ts"]).fs "src/other.ts" =
      lookupStr cW.fs "src/other.ts" ∧
    ("src/x.ts" ∈ ["src/x.ts"] ↔ ∃ s, s ∈ ["A", "B"] ∧ ∃ d pkg,
      lookupStr cDirs s = some d ∧ lookupStr cEnv.pkgs d = some pkg ∧
      ("src/x.ts" ∈ pkg.manifest.adds ∨
        "src/x.ts" ∈ pkg.manifest.modifies)) := by
  have h := claim_c6_reset_to_base cEnv cSenv ["A", "B"] cDirs ["src/x.ts"]
    cW (by decide)
  refine ⟨h.1 "src/x.ts" (by decide), h.2.1 "src/other.ts" ?_, h.2.2.1 "src/x.ts"⟩
  intro p hp
  rw [List.mem_singleton] at hp
  subst hp
  decide

/-- The collection loop reports the first skill without a `skillDirs`
entry, provided every earlier skill has a readable package. -/
theorem collectTouched_append_missing (env : Env)
    (skillDirs : List (String × String)) (s : String)
    (hs : lookupStr skillDirs s = none) :
    ∀ (pre post acc : List String),
      (∀ t ∈ pre, ∃ d pkg, lookupStr skillDirs t = some d ∧
        lookupStr env.pkgs d = some pkg) →
      collectTouched env skillDirs (pre ++ s :: post) acc = .missingDir s := by
  intro pre
  induction pre with
  | nil =>
    intro post acc _
    rw [List.nil_append]
    unfold collectTouched
    rw [hs]
  | cons t rest ih =>
    intro post acc hpre
    obtain ⟨d, pkg, hd, hp⟩ := hpre t (List.mem_cons_self t rest)
    rw [List.cons_append]
    simp only [collectTouched, hd, hp]
    exact ih post _ (fun t' ht' => hpre t' (List.mem_cons_of_mem _ ht'))

/-- Claim C9: when a skill in the list has no `skillDirs` entry (and is
the first such), `replaySkills` returns `success = false` with an error
naming that skill, from the collection step: the returned world is the
input world unchanged — no working-tree file is created, modified or
deleted, and the reset step never runs. -/
theorem claim_c9_missing_dir_aborts (env : Env) (senv : StructEnv)
    (skillDirs : List (String × String)) (pre post : List String)
    (s : String) (w : World)
    (hs : lookupStr skillDirs s = none)
    (hpre : ∀ t ∈ pre, ∃ d pkg, lookupStr skillDirs t = some d ∧
      lookupStr env.pkgs d = some pkg) :
    replaySkills env senv (pre ++ s :: post) skillDirs w =
      .done { success := false,
              perSkill := [(s, ⟨false,
                some ("Skill directory not found for: " ++ s)⟩)],
              mergeConflicts := none,
              error := some ("Missing skill directory for: " ++ s) } w := by
  unfold replaySkills
  rw [collectTouched_append_missing env skillDirs s hs pre post [] hpre]

/-- Witness for C9: replaying `["A", "C"]` where `C` has no directory
entry fails naming `C` and leaves the world untouched. -/
theorem claim_c9_witness :
    replaySkills cEnv cSenv (["A"] ++ "C" :: []) cDirs cW =
      .done { success := false,
              perSkill := [("C", ⟨false,
                some ("Skill directory not found for: " ++ "C")⟩)],
              mergeConflicts := none,
              error := some ("Missing skill directory for: " ++ "C") } cW :=
  claim_c9_missing_dir_aborts cEnv cSenv cDirs ["A"] [] "C" cW rfl
    (by
      intro t ht
      rw [List.mem_singleton] at ht
      subst ht
      exact ⟨"dirA", pkgA, rfl, rfl⟩)

/-- One-step unfolding of the replay loop. -/
theorem applyLoop_cons (env : Env) (skillDirs : List (String × String))
    (s : String) (rest : List String) (a : Acc) :
    applyLoop env skillDirs (s :: rest) a =
      match applySkillStep env skillDirs s a with
      | .early r w => .early r w
      | .conflicted c a' => .broke c a'
      | .ok a' => applyLoop env skillDirs rest a' := rfl

/-- The replay loop over a concatenation: run the first part; only a
fully finished first part continues into the second. -/
theorem applyLoop_append (env : Env) (skillDirs : List (String × String)) :
    ∀ (l₁ l₂ : List String) (a : Acc),
      applyLoop env skillDirs (l₁ ++ l₂) a =
        match applyLoop env skillDirs l₁ a with
        | .finished a' => applyLoop env skillDirs l₂ a'
        | r => r := by
  intro l₁
  induction l₁ with
  | nil => intro l₂ a; rfl
  | cons s rest ih =>
    intro l₂ a
    rw [List.cons_append, applyLoop_cons, applyLoop_cons]
    cases applySkillStep env skillDirs s a with
    | early r w => rfl
    | conflicted c a' => rfl
    | ok a' => exact ih l₂ a'

/-- Collecting structured operations never touches `perSkill`. -/
theorem collectStructured_perSkill (m : Manifest) (a : Acc) :
    (collectStructured m a).perSkill = a.perSkill := by
  unfold collectStructured
  cases m.npmDeps <;> rfl

/-- A successfully applied skill records exactly a success entry for
itself in `perSkill`. -/
theorem applySkillStep_ok_perSkill (env : Env)
    (skillDirs : List (String × String)) (s : String) (a a' : Acc)
    (h : applySkillStep env skillDirs s a = .ok a') :
    a'.perSkill = setStr a.perSkill s ⟨true, none⟩ := by
  unfold applySkillStep at h
  split at h
  · exact StepRes.noConfusion h
  · split at h
    · exact StepRes.noConfusion h
    · unfold applySkillPkg at h
      split at h
      · exact StepRes.noConfusion h
      · split at h
        · cases h
          rw [collectStructured_perSkill]
        · exact StepRes.noConfusion h

/-- A conflicted skill records exactly a failure entry for itself naming
the conflicted paths, and the conflict list is non-empty. -/
theorem applySkillStep_conflicted (env : Env)
    (skillDirs : List (String × String)) (s : String) (a : Acc)
    (c : List String) (a' : Acc)
    (h : applySkillStep env skillDirs s a = .conflicted c a') :
    a'.perSkill = setStr a.perSkill s
      ⟨false, some ("Merge conflicts: " ++ joinSep ", " c)⟩ ∧ c ≠ [] := by
  unfold applySkillStep at h
  split at h
  · exact StepRes.noConfusion h
  · split at h
    · exact StepRes.noConfusion h
    · unfold applySkillPkg at h
      split at h
      · exact StepRes.noConfusion h
      · split at h
        · exact StepRes.noConfusion h
        · cases h
          exact ⟨rfl, by assumption⟩

/-- A finished loop records a success entry for every skill in the list
and nothing for any other skill. -/
theorem applyLoop_finished_perSkill (env : Env)
    (skillDirs : List (String × String)) :
    ∀ (l : List String) (a a₂ : Acc),
      applyLoop env skillDirs l a = .finished a₂ →
      (∀ t, t ∉ l → lookupStr a₂.perSkill t = lookupStr a.perSkill t) ∧
      (∀ t, t ∈ l → lookupStr a₂.perSkill t = some ⟨true, none⟩) := by
  intro l
  induction l with
  | nil =>
    intro a a₂ h
    cases h
    exact ⟨fun t _ => rfl, fun t ht => absurd ht (List.not_mem_nil t)⟩
  | cons s rest ih =>
    intro a a₂ h
    unfold applyLoop at h
    cases hstep : applySkillStep env skillDirs s a with
    | early r w => rw [hstep] at h; exact LoopRes.noConfusion h
    | conflicted c a' => rw [hstep] at h; exact LoopRes.noConfusion h
    | ok a' =>
      rw [hstep] at h
      obtain ⟨hout, hin⟩ := ih a' a₂ h
      have hps := applySkillStep_ok_perSkill env skillDirs s a a' hstep
      constructor
      · intro t ht
        have hts : t ≠ s := fun he => ht (he ▸ List.mem_cons_self s rest)
        have htr : t ∉ rest := fun hr => ht (List.mem_cons_of_mem _ hr)
        rw [hout t htr, hps, lookupStr_setStr, if_neg hts]
      · intro t ht
        rcases List.mem_cons.mp ht with he | hmem
        · subst he
          by_cases hsr : t ∈ rest
          · exact hin t hsr
          · rw [hout t hsr, hps, lookupStr_setStr, if_pos rfl]
        · exact hin t hmem

/-- Claim C1: if the skill `s` is the first in the ordered list whose
application ends with unresolved merge conflicts (every earlier skill
applied cleanly, formalised as the loop finishing on the prefix, and `s`
then yielding the non-empty conflict list `c`), then `replaySkills`
returns `success = false` with `mergeConflicts = c`, `perSkill` holds
`success = true` for every prefix skill and the conflict failure for `s`,
and no skill after `s` has any `perSkill` entry — later skills are never
attempted. -/
theorem claim_c1_stop_on_conflict (env : Env) (senv : StructEnv)
    (skillDirs : List (String × String)) (pre post : List String)
    (s : String) (w : World) (files : List String) (a a' : Acc)
    (c : List String)
    (hcol : collectTouched env skillDirs (pre ++ s :: post) [] = .ok files)
    (hpre : applyLoop env skillDirs pre
      (replayPrep env (pre ++ s :: post) skillDirs w files) = .finished a)
    (hstep : applySkillStep env skillDirs s a = .conflicted c a')
    (hsp : s ∉ pre) :
    replaySkills env senv (pre ++ s :: post) skillDirs w =
      .done { success := false, perSkill := a'.perSkill,
              mergeConflicts := some c,
              error := some ("Unresolved merge conflicts: " ++
                joinSep ", " c) } a'.w ∧
    (∀ t ∈ pre, lookupStr a'.perSkill t = some ⟨true, none⟩) ∧
    lookupStr a'.perSkill s =
      some ⟨false, some ("Merge conflicts: " ++ joinSep ", " c)⟩ ∧
    (∀ t, t ∈ post → t ∉ pre → t ≠ s → lookupStr a'.perSkill t = none) ∧
    c ≠ [] := by
  obtain ⟨hps, hne⟩ := applySkillStep_conflicted env skillDirs s a c a' hstep
  obtain ⟨hout, hin⟩ := applyLoop_finished_perSkill env skillDirs pre _ a hpre
  have hloop : applyLoop env skillDirs (pre ++ s :: post)
      (replayPrep env (pre ++ s :: post) skillDirs w files) = .broke c a' := by
    rw [applyLoop_append, hpre]
    show applyLoop env skillDirs (s :: post) a = .broke c a'
    unfold applyLoop
    rw [hstep]
  refine ⟨?_, ?_, ?_, ?_, hne⟩
  · unfold replaySkills
    rw [hcol]
    show replayFinish senv (applyLoop env skillDirs (pre ++ s :: post)
      (replayPrep env (pre ++ s :: post) skillDirs w files)) = _
    rw [hloop]
    rfl
  · intro t ht
    have hts : t ≠ s := fun he => hsp (he ▸ ht)
    rw [hps, lookupStr_setStr, if_neg hts]
    exact hin t ht
  · rw [hps, lookupStr_setStr, if_pos rfl]
  · intro t htpost htpre hts
    rw [hps, lookupStr_setStr, if_neg hts, hout t htpre]
    rfl

/-- Witness for C1 at the end-to-end fixture from the spec: base
`line1`, skill A rewrites to `line1-from-A`, skill B to `line1-from-B`;
replaying `[A, B]` stops after B with the conflict. -/
theorem claim_c1_witness :
    (replaySkills cEnv cSenv (["A"] ++ "B" :: []) cDirs cW =
      .done cR1 cW1) ∧
    (∀ t ∈ ["A"], lookupStr cPerSkill1 t = some ⟨true, none⟩) ∧
    lookupStr cPerSkill1 "B" =
      some ⟨false, some ("Merge conflicts: " ++ joinSep ", " ["src/x.ts"])⟩ ∧
    (∀ t, t ∈ ([] : List String) → t ∉ ["A"] → t ≠ "B" →
      lookupStr cPerSkill1 t = none) ∧
    (["src/x.ts"] : List String) ≠ [] :=
  claim_c1_stop_on_conflict cEnv cSenv cDirs ["A"] [] "B" cW ["src/x.ts"]
    _ _ ["src/x.ts"] (by decide) rfl rfl (by decide)

/-- An early return out of the per-skill loop body never carries a
conflict list. -/
theorem applySkillStep_early_mc (env : Env)
    (skillDirs : List (String × String)) (s : String) (a : Acc)
    (r : ReplayResult) (w : World)
    (h : applySkillStep env skillDirs s a = .early r w) :
    r.mergeConflicts = none := by
  unfold applySkillStep at h
  split at h
  · cases h; rfl
  · split at h
    · cases h; rfl
    · unfold applySkillPkg at h
      split at h
      · cases h; rfl
      · split at h
        · exact StepRes.noConfusion h
        · exact StepRes.noConfusion h

/-- An early return out of the whole loop never carries a conflict
list. -/
theorem applyLoop_early_mc (env : Env)
    (skillDirs : List (String × String)) :
    ∀ (l : List String) (a : Acc) (r : ReplayResult) (w : World),
      applyLoop env skillDirs l a = .early r w → r.mergeConflicts = none := by
  intro l
  induction l with
  | nil => intro a r w h; exact LoopRes.noConfusion h
  | cons s rest ih =>
    intro a r w h
    rw [applyLoop_cons] at h
    cases hstep : applySkillStep env skillDirs s a with
    | early r' w' =>
      rw [hstep] at h
      cases h
      exact applySkillStep_early_mc env skillDirs s a _ _ hstep
    | conflicted c a' =>
      rw [hstep] at h
      exact LoopRes.noConfusion h
    | ok a' =>
      rw [hstep] at h
      exact ih a' r w h

/-- Claim C7: structured operations are applied only when no conflict
occurred.  (1) When `replaySkills` ends with a non-empty conflict list its
entire result — returned record and world — is independent of the
structured-merge environment: npm dependencies, env additions and
docker-compose services are never merged into their target files and the
install step never runs; the result has `success = false`.  (2) When the
per-skill loop finishes cleanly, replay returns `success = true` under
every structured environment, so in particular a failing
package-manager install step does not change the outcome. -/
theorem claim_c7_structured_gated_and_install_nonfatal :
    (∀ (env : Env) (senv senv' : StructEnv) (skills : List String)
       (skillDirs : List (String × String)) (w : World) (r : ReplayResult)
       (w₂ : World) (cl : List String),
       replaySkills env senv skills skillDirs w = .done r w₂ →
       r.mergeConflicts = some cl →
       replaySkills env senv' skills skillDirs w = .done r w₂ ∧
         r.success = false) ∧
    (∀ (env : Env) (senv : StructEnv) (skills : List String)
       (skillDirs : List (String × String)) (w : World)
       (files : List String) (a : Acc),
       collectTouched env skillDirs skills [] = .ok files →
       applyLoop env skillDirs skills
         (replayPrep env skills skillDirs w files) = .finished a →
       ∃ w₃, replaySkills env senv skills skillDirs w =
         .done { success := true, perSkill := a.perSkill,
                 mergeConflicts := none, error := none } w₃) := by
  constructor
  · intro env senv senv' skills skillDirs w r w₂ cl hdone hmc
    unfold replaySkills at hdone ⊢
    cases hcol : collectTouched env skillDirs skills [] with
    | missingDir s =>
      rw [hcol] at hdone
      cases hdone
      exact Option.noConfusion hmc
    | thrown msg =>
      rw [hcol] at hdone
      exact ReplayOut.noConfusion hdone
    | ok files =>
      rw [hcol] at hdone
      replace hdone : replayFinish senv (applyLoop env skillDirs skills
        (replayPrep env skills skillDirs w files)) = ReplayOut.done r w₂ :=
        hdone
      show replayFinish senv' (applyLoop env skillDirs skills
        (replayPrep env skills skillDirs w files)) = ReplayOut.done r w₂ ∧
        r.success = false
      cases hloop : applyLoop env skillDirs skills
          (replayPrep env skills skillDirs w files) with
      | early r' w' =>
        rw [hloop] at hdone
        cases hdone
        rw [applyLoop_early_mc env skillDirs skills _ _ _ hloop] at hmc
        exact Option.noConfusion hmc
      | broke c a =>
        rw [hloop] at hdone
        cases hdone
        exact ⟨rfl, rfl⟩
      | finished a =>
        rw [hloop] at hdone
        cases hdone
        exact Option.noConfusion hmc
  · intro env senv skills skillDirs w files a hcol hloop
    refine ⟨(replayFinish senv (LoopRes.finished a)).world, ?_⟩
    unfold replaySkills
    rw [hcol]
    show replayFinish senv (applyLoop env skillDirs skills
      (replayPrep env skills skillDirs w files)) = _
    rw [hloop]
    rfl

/-- Witness for C7: the conflicting two-skill run gives the identical
failed result under a structured environment with different merge
functions and a failing install; the clean npm-dependency skill `N`
still succeeds under the failing-install environment. -/
theorem claim_c7_witness :
    (replaySkills cEnv cSenv2 ["A", "B"] cDirs cW = .done cR1 cW1 ∧
      cR1.success = false) ∧
    (∃ w₃, replaySkills cEnv cSenv2 ["N"] cDirs cW =
      .done { success := true, perSkill := [("N", ⟨true, none⟩)],
              mergeConflicts := none, error := none } w₃) :=
  ⟨claim_c7_structured_gated_and_install_nonfatal.1 cEnv cSenv cSenv2
      ["A", "B"] cDirs cW cR1 cW1 ["src/x.ts"] rfl rfl,
   claim_c7_structured_gated_and_install_nonfatal.2 cEnv cSenv2 ["N"] cDirs
      cW [] _ rfl rfl⟩

/-! ## Preservation machinery for the uninstall rollback claim -/

theorem preserves_refl (w : World) : Preserves w w :=
  ⟨rfl, rfl, [], (List.append_nil _).symm, by simp⟩

theorem preserves_trans {w1 w2 w3 : World}
    (h1 : Preserves w1 w2) (h2 : Preserves w2 w3) : Preserves w1 w3 := by
  obtain ⟨hs1, hb1, evs1, he1, hn1⟩ := h1
  obtain ⟨hs2, hb2, evs2, he2, hn2⟩ := h2
  refine ⟨hs2.trans hs1, hb2.trans hb1, evs1 ++ evs2, ?_, ?_⟩
  · rw [he2, he1, List.append_assoc]
  · simp only [List.mem_append]
    rintro (h | h)
    · exact hn1 h
    · exact hn2 h

theorem preserves_fsWrite (w : World) (p c : String) :
    Preserves w (w.fsWrite p c) :=
  ⟨rfl, rfl, [Ev.write p], rfl, by simp⟩

theorem preserves_fsErase (w : World) (p : String) :
    Preserves w (w.fsErase p) :=
  ⟨rfl, rfl, [Ev.eraseF p], rfl, by simp⟩

theorem preserves_baseWrite (w : World) (p c : String) :
    Preserves w (w.baseWrite p c) :=
  ⟨rfl, rfl, [Ev.baseWrite p], rfl, by simp⟩

theorem preserves_rrSeed (w : World) (h pre post rp : String) :
    Preserves w (w.rrSeed h pre post rp) :=
  ⟨rfl, rfl, [Ev.rrSeed h rp], rfl, by simp⟩

theorem preserves_foldl {α β : Type} (f : β → α → β) (g : β → World)
    (hf : ∀ b x, Preserves (g b) (g (f b x))) :
    ∀ (l : List α) (b : β), Preserves (g b) (g (l.foldl f b)) := by
  intro l
  induction l with
  | nil => intro b; exact preserves_refl _
  | cons x rest ih => intro b; exact preserves_trans (hf b x) (ih (f b x))

theorem preserves_resetFile (env : Env) (w : World) (p : String) :
    Preserves w (resetFile env w p) := by
  simp only [resetFile]
  split
  · exact preserves_fsWrite _ _ _
  · split
    · exact preserves_fsErase _ _
    · exact preserves_refl w

theorem preserves_resetPhase (env : Env) (w : World) (files : List String) :
    Preserves w (resetPhase env w files) :=
  preserves_foldl (resetFile env) (fun v => v)
    (fun b x => preserves_resetFile env b x) files w

theorem preserves_mergeWithBase (env : Env)
    (resolved cur baseC skillC : String) (w : World) (cs : List String) :
    Preserves w (mergeWithBase env resolved cur baseC skillC w cs).1 := by
  unfold mergeWithBase
  split
  · exact preserves_fsWrite _ _ _
  · split
    · split
      · exact preserves_trans (preserves_fsWrite _ _ _)
          (preserves_fsWrite _ _ _)
      · exact preserves_fsWrite _ _ _
    · exact preserves_fsWrite _ _ _

theorem preserves_mergeOneModify (env : Env) (pkg : SkillPkg)
    (acc : World × List String) (relPath : String) :
    Preserves acc.1 (mergeOneModify env pkg acc relPath).1 := by
  obtain ⟨w, cs⟩ := acc
  show Preserves w (mergeOneModify env pkg (w, cs) relPath).1
  simp only [mergeOneModify]
  split
  · exact preserves_refl w
  · split
    · exact preserves_fsWrite _ _ _
    · split
      · exact preserves_mergeWithBase env _ _ _ _ w cs
      · exact preserves_trans (preserves_baseWrite _ _ _)
          (preserves_mergeWithBase env _ _ _ _ _ cs)

theorem preserves_runFileOps (env : Env) (s : String) (ops : List String)
    (w : World) : Preserves w (runFileOps env s ops w).2.2 := by
  unfold runFileOps
  split
  · exact preserves_refl w
  · exact ⟨rfl, rfl, [Ev.fileOps s], rfl, by simp⟩

theorem preserves_applyAdds (env : Env) (pkg : SkillPkg) (w : World) :
    Preserves w (applyAdds env pkg w) := by
  refine preserves_foldl _ (fun v => v) ?_ pkg.manifest.adds w
  intro b x
  split
  · exact preserves_fsWrite _ _ _
  · exact preserves_refl b

theorem preserves_applyModifies (env : Env) (pkg : SkillPkg) (w : World) :
    Preserves w (applyModifies env pkg w).1 :=
  preserves_foldl (mergeOneModify env pkg) Prod.fst
    (preserves_mergeOneModify env pkg) pkg.manifest.modifies (w, [])

/-- Collecting structured operations never changes the world. -/
theorem collectStructured_w (m : Manifest) (a : Acc) :
    (collectStructured m a).w = a.w := by
  unfold collectStructured
  cases m.npmDeps <;> rfl

theorem preserves_applySkillPkg (env : Env) (s : String) (pkg : SkillPkg)
    (a : Acc) : Preserves a.w (applySkillPkg env s pkg a).world := by
  unfold applySkillPkg
  split
  · next errs w heq =>
    have h := preserves_runFileOps env s pkg.manifest.fileOps a.w
    rw [heq] at h
    exact h
  · next fst w heq =>
    have h1 : Preserves a.w w := by
      have h := preserves_runFileOps env s pkg.manifest.fileOps a.w
      rw [heq] at h
      exact h
    split
    · next w' heq2 =>
      have h2 := preserves_applyAdds env pkg w
      have h3 := preserves_applyModifies env pkg (applyAdds env pkg w)
      rw [heq2] at h3
      show Preserves a.w (collectStructured pkg.manifest
        { a with w := w',
                 perSkill := setStr a.perSkill s ⟨true, none⟩ }).w
      rw [collectStructured_w]
      exact preserves_trans h1 (preserves_trans h2 h3)
    · next w' c heq2 =>
      have h2 := preserves_applyAdds env pkg w
      have h3 := preserves_applyModifies env pkg (applyAdds env pkg w)
      rw [heq2] at h3
      exact preserves_trans h1 (preserves_trans h2 h3)

theorem preserves_applySkillStep (env : Env)
    (skillDirs : List (String × String)) (s : String) (a : Acc) :
    Preserves a.w (applySkillStep env skillDirs s a).world := by
  unfold applySkillStep
  split
  · exact preserves_refl a.w
  · split
    · exact preserves_refl a.w
    · exact preserves_applySkillPkg env s _ a

theorem preserves_applyLoop (env : Env)
    (skillDirs : List (String × String)) :
    ∀ (l : List String) (a : Acc),
      Preserves a.w (applyLoop env skillDirs l a).world := by
  intro l
  induction l with
  | nil => intro a; exact preserves_refl a.w
  | cons s rest ih =>
    intro a
    rw [applyLoop_cons]
    cases hstep : applySkillStep env skillDirs s a with
    | early r w =>
      have := preserves_applySkillStep env skillDirs s a
      rw [hstep] at this
      exact this
    | conflicted c a' =>
      have := preserves_applySkillStep env skillDirs s a
      rw [hstep] at this
      exact this
    | ok a' =>
      have hstep' := preserves_applySkillStep env skillDirs s a
      rw [hstep] at hstep'
      exact preserves_trans hstep' (ih a')

theorem preserves_loadOnePair (env : Env) (skillDir? : Option String)
    (m : MetaDoc) (acc : World × Bool) (pr : Pair) :
    Preserves acc.1 (loadOnePair env skillDir? m acc pr).1 := by
  obtain ⟨w, b⟩ := acc
  rw [loadOnePair_eq]
  split
  · exact preserves_rrSeed _ _ _ _ _
  · exact preserves_refl w

theorem preserves_loadResolutions (env : Env) (skills : List String)
    (skillDir? : Option String) (w : World) :
    Preserves w (loadResolutions env skills skillDir? w).2 := by
  cases hf : findResolutionDir env skills with
  | none =>
    simp only [loadResolutions, hf]
    exact preserves_refl w
  | some resDir =>
    cases hm : env.metaOf resDir with
    | none =>
      simp only [loadResolutions, hf, hm]
      exact preserves_refl w
    | some m =>
      simp only [loadResolutions, hf, hm]
      split
      · exact preserves_refl w
      · split
        · exact preserves_refl w
        · cases hg : env.gitDir with
          | none => exact preserves_refl w
          | some g =>
            have hfold := preserves_foldl (loadOnePair env skillDir? m)
              Prod.fst (preserves_loadOnePair env skillDir? m)
              (env.pairsOf resDir) (w, false)
            cases hres : List.foldl (loadOnePair env skillDir? m) (w, false)
                (env.pairsOf resDir) with
            | mk w' l =>
              rw [hres] at hfold
              exact hfold

theorem preserves_replayPrep (env : Env) (skills : List String)
    (skillDirs : List (String × String)) (w : World) (files : List String) :
    Preserves w (replayPrep env skills skillDirs w files).w := by
  unfold replayPrep
  exact preserves_trans (preserves_resetPhase env w files)
    (preserves_loadResolutions env skills _ _)

theorem preserves_replayFinish (senv : StructEnv) (L : LoopRes) :
    Preserves L.world (replayFinish senv L).world := by
  cases L with
  | early r w => exact preserves_refl w
  | broke c a => exact preserves_refl a.w
  | finished a =>
    show Preserves a.w (npmInstallStep senv a.hasNpm (composeMergeStep senv
      a.docker (envMergeStep senv a.envAdds
        (npmMergeStep senv a.hasNpm a.npmDeps a.w))))
    have h1 : ∀ (v : World), Preserves v (npmMergeStep senv a.hasNpm a.npmDeps v) := by
      intro v
      unfold npmMergeStep
      split
      · exact preserves_fsWrite _ _ _
      · exact preserves_refl v
    have h2 : ∀ (v : World), Preserves v (envMergeStep senv a.envAdds v) := by
      intro v
      unfold envMergeStep
      split
      · exact preserves_refl v
      · exact preserves_fsWrite _ _ _
    have h3 : ∀ (v : World), Preserves v (composeMergeStep senv a.docker v) := by
      intro v
      unfold composeMergeStep
      split
      · exact preserves_refl v
      · exact preserves_fsWrite _ _ _
    have h4 : ∀ (v : World), Preserves v (npmInstallStep senv a.hasNpm v) := by
      intro v
      unfold npmInstallStep
      split
      · exact ⟨rfl, rfl, [Ev.npmInstall senv.npmInstallOk], rfl, by simp⟩
      · exact preserves_refl v
    exact preserves_trans (h1 a.w) (preserves_trans (h2 _)
      (preserves_trans (h3 _) (h4 _)))

theorem preserves_replaySkills (env : Env) (senv : StructEnv)
    (skills : List String) (skillDirs : List (String × String)) (w : World) :
    Preserves w (replaySkills env senv skills skillDirs w).world := by
  unfold replaySkills
  cases hcol : collectTouched env skillDirs skills [] with
  | missingDir s => exact preserves_refl w
  | thrown msg => exact preserves_refl w
  | ok files =>
    exact preserves_trans (preserves_replayPrep env skills skillDirs w files)
      (preserves_trans (preserves_applyLoop env skillDirs skills _)
        (preserves_replayFinish senv _))

/-! ## Backup and restore -/

/-- Restoring one snapshotted file sets exactly that path back to its
saved state. -/
theorem restoreOne_fs (v : World) (pc : String × Option String) (q : String) :
    lookupStr (restoreOne v pc).fs q =
      if q = pc.1 then pc.2 else lookupStr v.fs q := by
  obtain ⟨p, c?⟩ := pc
  cases c? with
  | some c => simp [restoreOne, World.fsWrite, lookupStr_setStr]
  | none =>
    simp only [restoreOne]
    split
    · simp [World.fsErase, lookupStr_eraseStr]
    · next h2 =>
      by_cases hq : q = p
      · subst hq
        cases hfq : lookupStr v.fs q with
        | none => simp [hfq]
        | some c => simp [hfq] at h2
      · simp [hq]

theorem preserves_restoreOne (v : World) (pc : String × Option String) :
    Preserves v (restoreOne v pc) := by
  obtain ⟨p, c?⟩ := pc
  cases c? with
  | some c => exact preserves_fsWrite _ _ _
  | none =>
    simp only [restoreOne]
    split
    · exact preserves_fsErase _ _
    · exact preserves_refl v

/-- Folding the snapshot restore over a saved file list: every saved path
ends at its saved value, every other path is untouched. -/
theorem restore_foldl (g : String → Option String) :
    ∀ (files : List String) (v : World) (q : String),
      lookupStr ((files.map (fun p => (p, g p))).foldl restoreOne v).fs q =
        if q ∈ files then g q else lookupStr v.fs q := by
  intro files
  induction files with
  | nil => intro v q; simp
  | cons p rest ih =>
    intro v q
    rw [List.map_cons, List.foldl_cons, ih, restoreOne_fs]
    by_cases hq : q = p
    · subst hq
      by_cases hr : q ∈ rest
      · simp [hr]
      · simp [hr]
    · by_cases hr : q ∈ rest
      · simp [hq, hr]
      · simp [hq, hr]

theorem preserves_restore_foldl (snap : List (String × Option String))
    (v : World) :
    Preserves v (snap.foldl restoreOne v) :=
  preserves_foldl restoreOne (fun x => x) preserves_restoreOne snap v

theorem preserves_resetExclusive (env : Env) (st : SysState) (name : String)
    (entry : AppliedSkill) (w : World) :
    Preserves w (resetExclusive env st name entry w) := by
  unfold resetExclusive
  refine preserves_foldl _ (fun v => v) ?_ _ w
  intro b x
  split
  · exact preserves_refl b
  · exact preserves_resetFile env b x

theorem preserves_applyCustomMods (env : Env) (mods : List CustomMod)
    (w : World) : Preserves w (applyCustomMods env mods w) := by
  refine preserves_foldl _ (fun v => v) ?_ mods w
  intro b x
  split
  · exact ⟨rfl, rfl, [Ev.gitApply x.patch_file], rfl, by simp⟩
  · exact preserves_refl b

/-- The world transformation shared by every post-backup failure exit of
`uninstallSkill` (restore the backup, clear it, release the lock), run
from any world that evolved by ordinary side effects from the moment the
backup was created: the state document is back to the original, the trace
grew only by non-`writeState` events including the restore, and every
backed-up path holds its original content again. -/
theorem rollback_world (w0 : World) (files : List String) (wMid : World)
    (hpres : Preserves (createBackup (lockW w0) files) wMid) :
    (unlockW (clearBackup (restoreBackup wMid))).stateDoc = w0.stateDoc ∧
    (∃ evs, (unlockW (clearBackup (restoreBackup wMid))).events =
      w0.events ++ evs ∧ Ev.stateWrite ∉ evs ∧ Ev.backupRestore ∈ evs) ∧
    ∀ p ∈ files,
      lookupStr (unlockW (clearBackup (restoreBackup wMid))).fs p =
        lookupStr w0.fs p := by
  obtain ⟨hs, hb, evs1, he1, hn1⟩ := hpres
  have hsnap : wMid.backup =
      some (files.map (fun p => (p, lookupStr w0.fs p))) := hb
  have hsd : wMid.stateDoc = w0.stateDoc := hs
  have hev : wMid.events = w0.events ++ ([Ev.lock, Ev.backupCreate] ++ evs1) := by
    rw [he1]
    simp [createBackup, lockW, List.append_assoc]
  have hrb : restoreBackup wMid =
      { ((files.map (fun p => (p, lookupStr w0.fs p))).foldl restoreOne wMid)
        with events :=
          ((files.map (fun p => (p, lookupStr w0.fs p))).foldl restoreOne
            wMid).events ++ [Ev.backupRestore] } := by
    unfold restoreBackup
    rw [hsnap]
  obtain ⟨hfs, hfb, evs2, he2, hn2⟩ :=
    preserves_restore_foldl (files.map (fun p => (p, lookupStr w0.fs p))) wMid
  refine ⟨?_, ?_, ?_⟩
  · show (restoreBackup wMid).stateDoc = w0.stateDoc
    rw [hrb]
    exact hfs.trans hsd
  · refine ⟨[Ev.lock, Ev.backupCreate] ++ evs1 ++ evs2 ++
      [Ev.backupRestore, Ev.backupClear, Ev.unlock], ?_, ?_, ?_⟩
    · show (restoreBackup wMid).events ++ [Ev.backupClear] ++ [Ev.unlock] = _
      rw [hrb]
      show ((files.map (fun p => (p, lookupStr w0.fs p))).foldl restoreOne
          wMid).events ++ [Ev.backupRestore] ++ [Ev.backupClear] ++
          [Ev.unlock] = _
      rw [he2, hev]
      simp [List.append_assoc]
    · simp only [List.mem_append, List.mem_cons]
      rintro (((h | h) | h) | h)
      · rcases h with h | h | h <;> simp_all
      · exact hn1 h
      · exact hn2 h
      · rcases h with h | h | h <;> simp_all
    · simp
  · intro p hp
    show lookupStr (restoreBackup wMid).fs p = lookupStr w0.fs p
    rw [hrb]
    show lookupStr ((files.map (fun p => (p, lookupStr w0.fs p))).foldl
      restoreOne wMid).fs p = lookupStr w0.fs p
    rw [restore_foldl (fun p => lookupStr w0.fs p) files wMid p, if_pos hp]

theorem preserves_replay_done (env : Env) (senv : StructEnv)
    (ss : List String) (dirs : List (String × String)) (v : World)
    (rr : ReplayResult) (w₂ : World)
    (heq : replaySkills env senv ss dirs v = .done rr w₂) :
    Preserves v w₂ := by
  have h := preserves_replaySkills env senv ss dirs v
  rw [heq] at h
  exact h

theorem preserves_replay_thrown (env : Env) (senv : StructEnv)
    (ss : List String) (dirs : List (String × String)) (v : World)
    (msg : String) (w₂ : World)
    (heq : replaySkills env senv ss dirs v = .thrown msg w₂) :
    Preserves v w₂ := by
  have h := preserves_replaySkills env senv ss dirs v
  rw [heq] at h
  exact h

/-- Every failing exit of the locked `uninstallSkill` core rolls the
backup back: the state document is never written, the trace gains no
`writeState` event but does gain the restore, and every backed-up path
holds its original content. -/
theorem uninstallCore_fail (env : Env) (senv : StructEnv) (name : String)
    (entry : AppliedSkill) (w0 : World) (r : UninstallResult) (w' : World)
    (h : uninstallCore env senv name entry w0.stateDoc (lockW w0) = (r, w'))
    (hfail : r.success = false) :
    w'.stateDoc = w0.stateDoc ∧
    (∃ evs, w'.events = w0.events ++ evs ∧ Ev.stateWrite ∉ evs ∧
      Ev.backupRestore ∈ evs) ∧
    ∀ p ∈ backupPaths w0.stateDoc, lookupStr w'.fs p = lookupStr w0.fs p := by
  simp only [uninstallCore, failRestore] at h
  split at h
  · cases h
    exact rollback_world w0 (backupPaths w0.stateDoc) _ (preserves_refl _)
  · next dirs heqld =>
    split at h
    · next msg wr heqr =>
      cases h
      refine rollback_world w0 (backupPaths w0.stateDoc) wr ?_
      exact preserves_trans
        (preserves_resetExclusive env w0.stateDoc name entry _)
        (preserves_replay_thrown _ _ _ _ _ _ _ heqr)
    · next rr wr heqr =>
      split at h
      · cases h
        refine rollback_world w0 (backupPaths w0.stateDoc) wr ?_
        exact preserves_trans
          (preserves_resetExclusive env w0.stateDoc name entry _)
          (preserves_replay_done _ _ _ _ _ _ _ heqr)
      · split at h
        · cases h
          simp at hfail
        · cases h
          refine rollback_world w0 (backupPaths w0.stateDoc) _ ?_
          refine preserves_trans
            (preserves_resetExclusive env w0.stateDoc name entry _) ?_
          refine preserves_trans
            (preserves_replay_done _ _ _ _ _ _ _ heqr) ?_
          exact preserves_applyCustomMods env _ wr

/-- Claim C3: whenever `uninstallSkill` fails — a remaining skill package
missing, replay failing, a post-replay test failing, a thrown replay, or
any precondition rejection — the persisted state document is never
written (it equals the original), the event trace gains no `writeState`
and whenever a backup was created it was restored, and every path in the
backup set holds its original content on return.  `writeState` happens
only on the full-success path. -/
theorem claim_c3_failure_rolls_back (env : Env) (senv : StructEnv)
    (skillName : String) (w : World) (r : UninstallResult) (w' : World)
    (h : uninstallSkill env senv skillName w = (r, w'))
    (hfail : r.success = false) :
    w'.stateDoc = w.stateDoc ∧
    (∃ evs, w'.events = w.events ++ evs ∧ Ev.stateWrite ∉ evs ∧
      (Ev.backupCreate ∈ evs → Ev.backupRestore ∈ evs)) ∧
    ∀ p ∈ backupPaths w.stateDoc, lookupStr w'.fs p = lookupStr w.fs p := by
  simp only [uninstallSkill] at h
  split at h
  · cases h
    exact ⟨rfl, ⟨[], by simp, by simp, by simp⟩, fun p _ => rfl⟩
  · split at h
    · cases h
      exact ⟨rfl, ⟨[], by simp, by simp, by simp⟩, fun p _ => rfl⟩
    · next entry heqf =>
      split at h
      · cases h
        exact ⟨rfl, ⟨[], by simp, by simp, by simp⟩, fun p _ => rfl⟩
      · obtain ⟨h1, ⟨evs, he, hn, hbr⟩, h3⟩ :=
          uninstallCore_fail env senv skillName entry w r w' h hfail
        exact ⟨h1, ⟨evs, he, hn, fun _ => hbr⟩, h3⟩

/-- Witness for C3: uninstalling `telegram` from the two-skill state
fails (the `discord` package cannot be located), and the returned world
has the original state document, a `writeState`-free trace containing the
restore, and the original content at every backed-up path. -/
theorem claim_c3_witness :
    (uninstallSkill cEnv cSenv "telegram" cWtwo).2.stateDoc =
      cWtwo.stateDoc ∧
    (∃ evs, (uninstallSkill cEnv cSenv "telegram" cWtwo).2.events =
      cWtwo.events ++ evs ∧ Ev.stateWrite ∉ evs ∧
      (Ev.backupCreate ∈ evs → Ev.backupRestore ∈ evs)) ∧
    ∀ p ∈ backupPaths cWtwo.stateDoc,
      lookupStr (uninstallSkill cEnv cSenv "telegram" cWtwo).2.fs p =
        lookupStr cWtwo.fs p :=
  claim_c3_failure_rolls_back cEnv cSenv "telegram" cWtwo
    (uninstallSkill cEnv cSenv "telegram" cWtwo).1
    (uninstallSkill cEnv cSenv "telegram" cWtwo).2
    rfl rfl

end Nanoclaw
